import Mathlib

/-!
# Verification of the VOS command emulator core

Shallow embedding of `vos_emulator.py`: the command resolution engine
(`VOShell._resolve`, `_split_cmd_args`), the sandboxed path resolver
(`resolve_state_path`, `h_change_current_dir`), and the file-backed
batch-job store (`_derive_process_name`, `_generate_unique_job_path`,
`h_batch`, `h_display_batch_status`, `h_cancel_batch_requests`,
`h_update_batch_requests`), together with the registry of built-in
handlers (`BUILTINS`).

Strings are modelled as `List Char` (`Str`), which matches Python's
string-as-sequence-of-code-points model for the ASCII data the emulator
manipulates.  Python string primitives used by the source
(`str.split`, `str.strip`, `str.lower`, `os.path.join`,
`os.path.normpath`, `os.path.basename`, `fnmatch.fnmatch`, `int(...)`)
are each given a faithful executable definition below.
-/

namespace VosEmu

/-- Python strings, modelled as lists of characters. -/
abbrev Str := List Char

/-- The six ASCII whitespace characters recognised by Python's
`str.split()` / `str.strip()` (the source only ever handles ASCII input;
Python's additional Unicode whitespace is outside the modelled data). -/
def isPySpace (c : Char) : Bool :=
  c = ' ' || c = '\t' || c = '\n' || c = '\x0d' || c = '\x0b' || c = '\x0c'

/-- ASCII lower-casing, as performed by Python's `str.lower` on the
ASCII command/path data the emulator works with. -/
def lowerChar (c : Char) : Char :=
  if 'A' ≤ c ∧ c ≤ 'Z' then Char.ofNat (c.toNat + 32) else c

/-- `str.lower` on a whole string. -/
def lowerS (s : Str) : Str := s.map lowerChar

/-- Python `str.isalnum` restricted to ASCII (all names the emulator
filters are ASCII). -/
def pyIsAlnum (c : Char) : Bool :=
  ('a' ≤ c && c ≤ 'z') || ('A' ≤ c && c ≤ 'Z') || ('0' ≤ c && c ≤ '9')

/-- Does `s` start with the word `pre`?  (Python `str.startswith`.) -/
def startsWithS : Str → Str → Bool
  | [], _ => true
  | _ :: _, [] => false
  | p :: ps, c :: cs => p = c && startsWithS ps cs

/-- Does `s` end with `suf`?  (Python `str.endswith`.) -/
def endsWithS (suf s : Str) : Bool :=
  startsWithS suf.reverse s.reverse

/-- Drop characters satisfying `p` from the right end of a list. -/
def dropRightWhileS (p : Char → Bool) (s : Str) : Str :=
  (s.reverse.dropWhile p).reverse

/-- Python `str.strip(chars)`: remove characters satisfying `p` from both
ends. -/
def stripS (p : Char → Bool) (s : Str) : Str :=
  dropRightWhileS p (s.dropWhile p)

/-- Python `str.strip()` (whitespace strip). -/
def pyStrip (s : Str) : Str := stripS isPySpace s

/-- Python `str.split()` with no separator: split on runs of whitespace,
discarding empty fields. -/
def pySplitWs (s : Str) : List Str :=
  match s with
  | [] => []
  | c :: rest =>
    if isPySpace c then pySplitWs rest
    else
      match pySplitWs rest with
      | [] => [[c]]
      | w :: ws =>
        match rest with
        | [] => [[c]]
        | d :: _ => if isPySpace d then [c] :: w :: ws else (c :: w) :: ws

/-- Python `str.split(sep)` for a one-character separator: keeps empty
fields, always returns at least one field. -/
def splitOnChar (sep : Char) : Str → List Str
  | [] => [[]]
  | c :: rest =>
    if c = sep then [] :: splitOnChar sep rest
    else
      match splitOnChar sep rest with
      | [] => [[c]]
      | f :: fs => (c :: f) :: fs

/-- Python `sep.join(fields)` for a one-character separator. -/
def intercalateChar (sep : Char) : List Str → Str
  | [] => []
  | [s] => s
  | s :: rest => s ++ sep :: intercalateChar sep rest

/-- Join a list of strings with a multi-character separator
(Python `sep.join`). -/
def intercalateS (sep : Str) : List Str → Str
  | [] => []
  | [s] => s
  | s :: rest => s ++ sep ++ intercalateS sep rest

/-- POSIX `os.path.isabs`: the path starts with `/`. -/
def pyIsAbs (p : Str) : Bool := startsWithS "/".toList p

/-- POSIX `os.path.join` for two components. -/
def pyJoin (a b : Str) : Str :=
  if pyIsAbs b then b
  else if a = [] || endsWithS "/".toList a then a ++ b
  else a ++ '/' :: b

/-- POSIX `os.path.join(a, *parts)`. -/
def pyJoinList (a : Str) : List Str → Str
  | [] => a
  | b :: rest => pyJoinList (pyJoin a b) rest

/-- POSIX `os.path.basename`: the part after the final `/`. -/
def pyBasename (p : Str) : Str :=
  (splitOnChar '/' p).getLastD []

/-- One step of `posixpath.normpath`'s component loop. -/
def normStep (initialSlashes : Nat) (acc : List Str) (comp : Str) : List Str :=
  if comp = [] || comp = ".".toList then acc
  else if comp ≠ "..".toList || (initialSlashes = 0 && acc = []) ||
          (acc ≠ [] && acc.getLastD [] = "..".toList) then acc ++ [comp]
  else if acc ≠ [] then acc.dropLast
  else acc

/-- POSIX `os.path.normpath`. -/
def pyNormpath (p : Str) : Str :=
  if p = [] then ".".toList
  else
    let initialSlashes : Nat :=
      if startsWithS "/".toList p then
        if startsWithS "//".toList p && !startsWithS "///".toList p then 2 else 1
      else 0
    let comps := (splitOnChar '/' p).foldl (normStep initialSlashes) []
    let body := intercalateChar '/' comps
    let out := List.replicate initialSlashes '/' ++ body
    if out = [] then ".".toList else out

/-- POSIX `os.path.abspath`, given the process working directory `cwd`. -/
def pyAbspath (cwd p : Str) : Str :=
  pyNormpath (if pyIsAbs p then p else pyJoin cwd p)

/-- Length of the common prefix of two lists of components
(`os.path.commonprefix` on lists). -/
def commonPrefixLen : List Str → List Str → Nat
  | a :: as', b :: bs => if a = b then commonPrefixLen as' bs + 1 else 0
  | _, _ => 0

/-- POSIX `os.path.relpath(p, s)`, given the working directory `cwd`. -/
def pyRelpath (cwd p s : Str) : Str :=
  let pl := (splitOnChar '/' (pyAbspath cwd p)).filter (· ≠ [])
  let sl := (splitOnChar '/' (pyAbspath cwd s)).filter (· ≠ [])
  let i := commonPrefixLen sl pl
  let rel := List.replicate (sl.length - i) "..".toList ++ pl.drop i
  match rel with
  | [] => ".".toList
  | r :: rest => pyJoinList r rest

/-- Value of a decimal digit string. -/
def digitsToNat (ds : Str) : Nat :=
  ds.foldl (fun acc c => 10 * acc + (c.toNat - '0'.toNat)) 0

/-- Python `int(str)`: optional surrounding whitespace, optional sign,
then decimal digits; anything else raises `ValueError`, modelled as
`none`.  (Python additionally accepts digit-group underscores and
non-ASCII digits; the emulator never feeds it such input.) -/
def pyInt? (s : Str) : Option Int :=
  let t := pyStrip s
  let signed : Int × Str :=
    match t with
    | '-' :: r => (-1, r)
    | '+' :: r => (1, r)
    | _ => (1, t)
  if signed.2 ≠ [] && signed.2.all Char.isDigit then
    some (signed.1 * (digitsToNat signed.2 : Int))
  else none

/-- Split a character-class body at its first `]` (the scan performed by
`fnmatch.translate` when looking for the closing bracket). -/
def findClose : Str → Option (Str × Str)
  | [] => none
  | c :: rest =>
    if c = ']' then some ([], rest)
    else (findClose rest).map (fun p => (c :: p.1, p.2))

theorem findClose_eq {cs b a : Str} (h : findClose cs = some (b, a)) :
    cs = b ++ ']' :: a := by
  induction cs generalizing b a with
  | nil => simp [findClose] at h
  | cons c rest ih =>
    rw [findClose] at h
    split at h
    · next hc =>
      subst hc
      cases h
      rfl
    · next hc =>
      rw [Option.map_eq_some'] at h
      obtain ⟨p, hp, hg⟩ := h
      obtain ⟨pb, pa⟩ := p
      cases hg
      simp [ih hp]

theorem findClose_rest_lt {cs b a : Str} (h : findClose cs = some (b, a)) :
    a.length < cs.length := by
  have hcs := findClose_eq h
  subst hcs
  simp
  omega

/-- Parse a `fnmatch` character group, given the characters after the
opening `[`: returns (negated?, group body, rest of pattern), or `none`
when there is no closing `]` (in which case `[` is a literal).  The
scan mirrors `fnmatch.translate`: an optional leading `!` flags
negation, an immediately following `]` belongs to the group body. -/
def parseGroup : Str → Option (Bool × Str × Str)
  | '!' :: ']' :: r => (findClose r).map (fun p => (true, ']' :: p.1, p.2))
  | '!' :: r => (findClose r).map (fun p => (true, p.1, p.2))
  | ']' :: r => (findClose r).map (fun p => (false, ']' :: p.1, p.2))
  | r => (findClose r).map (fun p => (false, p.1, p.2))

theorem parseGroup_rest_lt {cs : Str} {neg : Bool} {body rest : Str}
    (h : parseGroup cs = some (neg, body, rest)) : rest.length < cs.length := by
  unfold parseGroup at h
  split at h <;>
  · rw [Option.map_eq_some'] at h
    obtain ⟨p, hp, hg⟩ := h
    obtain ⟨pb, pa⟩ := p
    cases hg
    have := findClose_rest_lt hp
    simp_all
    all_goals omega

/-- Does character `c` belong to the character-group body?  `a-b` denotes
a code-point range (a leading or trailing `-` is a literal, as in the
regular expression `fnmatch.translate` produces). -/
def groupMatches : Str → Char → Bool
  | a :: '-' :: b :: rest, c =>
    (a ≤ c && c ≤ b) || groupMatches rest c
  | x :: rest, c => x = c || groupMatches rest c
  | [], _ => false

/-- Shell-style glob matching with explicit fuel (each step shortens
`pat.length + s.length`, so the fuel `gMatch` supplies is never
exhausted; the fuel only makes the recursion structural). -/
def gMatchF : Nat → Str → Str → Bool
  | 0, _, _ => false
  | fuel + 1, pat, s =>
    match pat, s with
    | [], s => s.isEmpty
    | '*' :: ps, s =>
      gMatchF fuel ps s ||
        (match s with
         | [] => false
         | _ :: s' => gMatchF fuel ('*' :: ps) s')
    | '?' :: ps, s =>
      (match s with
       | [] => false
       | _ :: s' => gMatchF fuel ps s')
    | '[' :: ps, s =>
      (match parseGroup ps with
       | none =>
         match s with
         | c :: s' => c = '[' && gMatchF fuel ps s'
         | [] => false
       | some (neg, body, rest) =>
         match s with
         | [] => false
         | c :: s' => (neg != groupMatches body c) && gMatchF fuel rest s')
    | p :: ps, s =>
      (match s with
       | c :: s' => c = p && gMatchF fuel ps s'
       | [] => false)

/-- Shell-style glob matching, the semantics of
`fnmatch.fnmatch(s, pat)` on a POSIX host (where `normcase` is the
identity): `*` matches any sequence, `?` any single character, `[...]`
a character group, everything else literally. -/
def gMatch (pat s : Str) : Bool :=
  gMatchF (pat.length + s.length + 1) pat s

/-- Case-insensitive glob match, exactly as the emulator calls it:
`fnmatch.fnmatch(name.lower(), pat.lower())`. -/
def fnmatchCI (name pat : Str) : Bool :=
  gMatch (lowerS pat) (lowerS name)

/-- Lexicographic string-leq by code point (the order Python's `sorted`
uses on strings). -/
def strLe : Str → Str → Bool
  | [], _ => true
  | _ :: _, [] => false
  | a :: as', b :: bs => if a = b then strLe as' bs else decide (a < b)

/-- Insert into a sorted list, before the first element `x` is
`le`-below-or-equal to (this right-fold insertion keeps the sort
stable: an element placed earlier in the input stays before `le`-equal
later ones). -/
def insertSorted {α : Type} (le : α → α → Bool) (x : α) : List α → List α
  | [] => [x]
  | y :: ys => if le x y then x :: y :: ys else y :: insertSorted le x ys

/-- Python's `sorted`: a stable sort by the total preorder `le`.
(Any two stable sorts agree, so this structural insertion sort has
exactly CPython's output.) -/
def pySorted {α : Type} (le : α → α → Bool) : List α → List α
  | [] => []
  | x :: xs => insertSorted le x (pySorted le xs)

theorem mem_insertSorted {α : Type} (le : α → α → Bool) (x a : α) :
    ∀ l, a ∈ insertSorted le x l ↔ a = x ∨ a ∈ l := by
  intro l
  induction l with
  | nil => simp [insertSorted]
  | cons y ys ih =>
    rw [insertSorted]
    split
    · simp
    · simp only [List.mem_cons, ih]
      tauto

theorem mem_pySorted {α : Type} (le : α → α → Bool) (a : α) :
    ∀ l, a ∈ pySorted le l ↔ a ∈ l := by
  intro l
  induction l with
  | nil => simp [pySorted]
  | cons x xs ih =>
    rw [pySorted, mem_insertSorted, ih]
    simp

/-- Python `sorted` on a list of strings (stable; code-point order). -/
def sortStrs (l : List Str) : List Str := pySorted strLe l

/-! ## Path resolution (`resolve_state_path`, lines 451–504) -/

/-- `resolve_state_path(filename)`: map a VOS-style pathname to a host
path under `stateDir`, honouring the tracked working directory `curDir`
(always a `/`-relative string, empty meaning the sandbox root).
Transliterated from the source:
empty input → current directory; host-absolute input returned unchanged;
a `>`-path starting with `>` is sandbox-absolute; a `>`-path not
starting with `>` is relative to `curDir`; anything else is a single
relative segment. -/
def resolve_state_path (stateDir curDir filename : Str) : Str :=
  if filename = [] then
    (if curDir ≠ [] then pyJoin stateDir curDir else stateDir)
  else
    let fname := pyStrip filename
    if pyIsAbs fname then fname
    else if fname.contains '>' then
      let parts := (splitOnChar '>' fname).filter (· ≠ [])
      if startsWithS ">".toList fname then
        pyJoinList stateDir parts
      else
        let baseParts := if curDir ≠ [] then splitOnChar '/' curDir else []
        pyJoinList stateDir (baseParts ++ parts)
    else
      let base := if curDir ≠ [] then pyJoin stateDir curDir else stateDir
      pyJoin base fname

/-- Format a WorkingDirectory value in legacy (VOS) notation, as
`h_display_current_dir` does: the root is a bare `>`, otherwise a
leading `>` followed by the `/`-separated segments joined by `>`. -/
def formatVosWd (d : Str) : Str :=
  if d = [] then ">".toList
  else '>' :: intercalateChar '>' (splitOnChar '/' d)

/-- The sandbox root with the WorkingDirectory's segments appended: the
concrete directory a WorkingDirectory value denotes.  The empty
WorkingDirectory denotes the root itself. -/
def sandboxJoin (root d : Str) : Str :=
  if d = [] then root else pyJoin root d

/-- Well-formedness of a WorkingDirectory value `d` as a legacy path
(§6 grammar): its `/`-segments are non-empty, and it contains neither
the legacy separator `>` nor whitespace (segment names in the legacy
grammar contain no separator; whitespace would be eaten by the
resolver's `strip`).  The empty value (the sandbox root) is
well-formed. -/
def wdOk (d : Str) : Bool :=
  d.all (fun c => c ≠ '>' && !isPySpace c) &&
  (d = [] || (splitOnChar '/' d).all (fun s => !s.isEmpty))

/-! ## Batch process-name derivation (`_derive_process_name`,
lines 1222–1249) -/

/-- `_derive_process_name(command_line)`: first whitespace token, strip
surrounding quote characters, keep the last `>` segment, take the host
basename, cut at the **first** `.` (`split('.')[0]` in the source),
filter to alphanumeric/underscore/hyphen, fall back to `"batch"` when
empty, truncate to 32 characters.  `none` models the uncaught
`IndexError` the source raises on a non-empty, all-whitespace command
line (`.strip().split()[0]` on an empty token list). -/
def derive_process_name (commandLine : Str) : Option Str :=
  if commandLine = [] then some "batch".toList
  else
    match pySplitWs (pyStrip commandLine) with
    | [] => none
    | w :: _ =>
      let w1 := stripS (fun c => c = '\'' || c = '"') w
      let w2 := if w1.contains '>' then (splitOnChar '>' w1).getLastD [] else w1
      let w3 := pyBasename w2
      let w4 := if w3.contains '.' then (splitOnChar '.' w3).headD [] else w3
      let name := w4.filter (fun c => pyIsAlnum c || c = '_' || c = '-')
      let name := if name = [] then "batch".toList else name
      some (name.take 32)

/-- The derivation exactly as the specification words it (and as the
source's own docstring describes it): identical to
`derive_process_name` except that the extension cut removes everything
from the **last** `.` onward.  Written from the spec's words for
comparison with the source's behaviour. -/
def derive_process_name_spec (commandLine : Str) : Option Str :=
  if commandLine = [] then some "batch".toList
  else
    match pySplitWs (pyStrip commandLine) with
    | [] => none
    | w :: _ =>
      let w1 := stripS (fun c => c = '\'' || c = '"') w
      let w2 := if w1.contains '>' then (splitOnChar '>' w1).getLastD [] else w1
      let w3 := pyBasename w2
      let w4 := if w3.contains '.' then
                  (splitOnChar '.' w3).dropLast |> intercalateChar '.'
                else w3
      let name := w4.filter (fun c => pyIsAlnum c || c = '_' || c = '-')
      let name := if name = [] then "batch".toList else name
      some (name.take 32)

/-! ## Unique job-file naming (`_generate_unique_job_path`,
lines 1252–1267) -/

/-- The candidate file names tried, in order: `<base>.job`, then
`<base>_1.job`, `<base>_2.job`, …. -/
def jobFileName (base : Str) (k : Nat) : Str :=
  if k = 0 then base ++ ".job".toList
  else base ++ '_' :: (toString k).toList ++ ".job".toList

/-- The `while os.path.exists` loop of `_generate_unique_job_path`,
with explicit fuel (the source loop terminates because the queue
directory holds finitely many files). -/
def genJobLoop (existsF : Str → Bool) (base : Str) : Nat → Nat → Str
  | 0, k => jobFileName base k
  | fuel + 1, k =>
    if existsF (jobFileName base k) then genJobLoop existsF base fuel (k + 1)
    else jobFileName base k

/-- `_generate_unique_job_path(queue_name, process_name)`: the chosen
path is `BATCH_ROOT/<queue>/<name>` where `<name>` is the first free
candidate.  `pathExists` abstracts `os.path.exists` on the host. -/
def generate_unique_job_path (pathExists : Str → Bool) (batchRoot : Str)
    (fuel : Nat) (queueName processName : Str) : Str :=
  let queueDir := pyJoin batchRoot queueName
  pyJoin queueDir
    (genJobLoop (fun fn => pathExists (pyJoin queueDir fn)) processName fuel 0)

/-! ## The batch store

Jobs live as JSON files `BATCH_ROOT/<queue>/<name>.job`.  A queue
directory is modelled as its name, an `isDir` flag (`os.path.isdir`:
stray non-directory entries under `BATCH_ROOT` are skipped), and its
directory listing: pairs of a file name and the outcome of
`json.load`, where `none` models a file whose record fails to parse.
Priorities are JSON values as the handlers observe them: an integer or
JSON `null` when the key is present, absent otherwise (records written
by `h_batch` always carry both keys, `process_priority` possibly
`null`).  A record's `process_name`, when present, is a string — the
emulator only ever writes strings there. -/

/-- A JSON priority value as stored in a job record. -/
inductive PyVal
  | pint (n : Int)
  | pnull
  deriving DecidableEq, Repr

/-- The fields of a parsed `.job` record that the batch handlers read;
`none` models an absent key (`dict.get` default). -/
structure JobRecord where
  processName : Option Str
  queuePriority : Option PyVal
  processPriority : Option PyVal
  deriving DecidableEq, Repr

/-- One queue directory under `BATCH_ROOT`. -/
structure QueueDir where
  name : Str
  isDir : Bool
  files : List (Str × Option JobRecord)
  deriving DecidableEq, Repr

/-- The state of `BATCH_ROOT`: its directory entries in listing order. -/
abbrev BatchRoot := List QueueDir

/-- `fname[:-4]`: a `.job` file name with the suffix removed. -/
def jobBase (fname : Str) : Str := fname.take (fname.length - 4)

/-- `str(value)` for a table cell holding `dict.get(key, '')`: an
absent key shows as the empty default, JSON `null` as Python's
`str(None)`. -/
def pyValCell : Option PyVal → Str
  | none => []
  | some (.pint n) => (toString n).toList
  | some .pnull => "None".toList

/-- Python `!=` between `dict.get(key)` (so `None` for an absent key or
a stored `null`) and a requested integer priority. -/
def pyValNeInt : Option PyVal → Int → Bool
  | some (.pint m), n => m ≠ n
  | _, _ => true

/-- The error-string helper `_err`: formats and records the message. -/
def errS (m : Str) : Str := "[ERR] ".toList ++ m

/-- The success helper `_ok`. -/
def okS (m : Str) : Str := "[OK] ".toList ++ m

/-- Is a handler result an error message? -/
def isErrS (s : Str) : Bool := startsWithS "[ERR] ".toList s

/-! ### Listing (`h_display_batch_status`, lines 1391–1424) -/

/-- A row of the batch status table:
(queue, process, queue-priority, process-priority, status) as strings. -/
abbrev StatusRow := Str × Str × Str × Str × Str

/-- The row built for one `.job` directory entry: a parsed record shows
its fields and status `pending`; a record that failed to parse shows
the file base name and the `unreadable` sentinel. -/
def statusRowOf (queue fname : Str) : Option JobRecord → StatusRow
  | some job =>
    (queue, job.processName.getD (jobBase fname), pyValCell job.queuePriority,
     pyValCell job.processPriority, "pending".toList)
  | none => (queue, jobBase fname, [], [], "unreadable".toList)

/-- The `for fname in sorted(...)` inner loop of
`h_display_batch_status`: one row per `.job` file, in order. -/
def statusRowsOfQueue (queue : Str) : List (Str × Option JobRecord) → List StatusRow
  | [] => []
  | (fname, rec) :: rest =>
    if endsWithS ".job".toList fname then
      statusRowOf queue fname rec :: statusRowsOfQueue queue rest
    else statusRowsOfQueue queue rest

/-- Does the optional queue filter reject this queue?  (Python
`if queue_filter and queue_name != queue_filter: continue` — an empty
filter string is falsy and filters nothing.) -/
def queueFiltered (queueFilter : Option Str) (queue : Str) : Bool :=
  match queueFilter with
  | some f => f ≠ [] && queue ≠ f
  | none => false

/-- The outer loop of `h_display_batch_status`: queues in sorted order,
the filtered/non-directory ones skipped. -/
def statusRowsLoop (queueFilter : Option Str) : List QueueDir → List StatusRow
  | [] => []
  | q :: rest =>
    if queueFiltered queueFilter q.name then statusRowsLoop queueFilter rest
    else if !q.isDir then statusRowsLoop queueFilter rest
    else statusRowsOfQueue q.name (pySorted (fun a b => strLe a.1 b.1) q.files) ++
         statusRowsLoop queueFilter rest

/-- All rows `h_display_batch_status` collects for a given
`BATCH_ROOT` state. -/
def displayBatchRows (queueFilter : Option Str) (root : BatchRoot) : List StatusRow :=
  statusRowsLoop queueFilter (pySorted (fun a b => strLe a.name b.name) root)

/-- The `.job` entries the listing enumerates, with their queue names:
the same traversal, before row formatting. -/
def enumJobEntries (queueFilter : Option Str) (root : BatchRoot) :
    List (Str × Str × Option JobRecord) :=
  (pySorted (fun a b => strLe a.name b.name) root).foldr
    (fun q acc =>
      if queueFiltered queueFilter q.name || !q.isDir then acc
      else ((pySorted (fun a b => strLe a.1 b.1) q.files).filter
              (fun e => endsWithS ".job".toList e.1)).map
             (fun e => (q.name, e.1, e.2)) ++ acc)
    []

/-! ### Cancellation (`h_cancel_batch_requests`, lines 1461–1498) -/

/-- The process name a stored file is matched under: the record's
`process_name` when it parses and carries one, otherwise the file base
name (both for a missing key and for a file that fails to parse). -/
def effectiveProcessName (fname : Str) (rec : Option JobRecord) : Str :=
  match rec with
  | some job => job.processName.getD (jobBase fname)
  | none => jobBase fname

/-- Is this directory entry cancelled by the given patterns?  Only
`.job` files are considered; matching is case-insensitive glob on the
effective process name, first matching pattern wins (`break`). -/
def cancelHit (patterns : List Str) (fname : Str) (rec : Option JobRecord) : Bool :=
  endsWithS ".job".toList fname &&
    patterns.any (fun pat => fnmatchCI (effectiveProcessName fname rec) pat)

/-- The inner file loop of `h_cancel_batch_requests`: returns the
surviving directory entries and the number of removals.  (`os.remove`
failures, swallowed by the source's inner `except: pass`, are not
modelled: removals succeed.) -/
def cancelFiles (patterns : List Str) : List (Str × Option JobRecord) →
    List (Str × Option JobRecord) × Nat
  | [] => ([], 0)
  | e :: rest =>
    let r := cancelFiles patterns rest
    if cancelHit patterns e.1 e.2 then (r.1, r.2 + 1)
    else (e :: r.1, r.2)

/-- The queue loop of `h_cancel_batch_requests`. -/
def cancelRoot (patterns : List Str) : BatchRoot → BatchRoot × Nat
  | [] => ([], 0)
  | q :: rest =>
    let r := cancelRoot patterns rest
    if q.isDir then
      let f := cancelFiles patterns q.files
      ({ q with files := f.1 } :: r.1, f.2 + r.2)
    else (q :: r.1, r.2)

/-- `h_cancel_batch_requests(args)`: output string and new
`BATCH_ROOT` state. -/
def h_cancel_batch_requests (args : List Str) (root : BatchRoot) :
    Str × BatchRoot :=
  if args = [] then
    (errS "usage: cancel_batch_requests <process_name(s)>".toList, root)
  else
    let r := cancelRoot args root
    (okS ("cancelled ".toList ++ (toString r.2).toList ++
          " batch request(s)".toList), r.1)

/-! ### Updating (`h_update_batch_requests`, lines 1501–1583) -/

/-- The argument-parsing loop of `h_update_batch_requests`: bare tokens
are patterns, `-queue_priority` / `-process_priority` take an integer
value, any other `-` token is an unknown option.  `.error` carries the
message handed to `_err`. -/
def parseUpdateArgs (pats : List Str) (nq np : Option Int) :
    List Str → Except Str (List Str × Option Int × Option Int)
  | [] => .ok (pats, nq, np)
  | a :: rest =>
    if startsWithS "-".toList a then
      if a = "-queue_priority".toList then
        match rest with
        | [] => .error "update_batch_requests: missing value for -queue_priority".toList
        | v :: rest' =>
          match pyInt? v with
          | none => .error "update_batch_requests: invalid queue_priority".toList
          | some n => parseUpdateArgs pats (some n) np rest'
      else if a = "-process_priority".toList then
        match rest with
        | [] => .error "update_batch_requests: missing value for -process_priority".toList
        | v :: rest' =>
          match pyInt? v with
          | none => .error "update_batch_requests: invalid process_priority".toList
          | some n => parseUpdateArgs pats nq (some n) rest'
      else .error ("update_batch_requests: unknown option ".toList ++ a)
    else parseUpdateArgs (pats ++ [a]) nq np rest

/-- Apply the requested priority changes to one parsed record,
returning the new record and whether anything actually changed
(the source's `changed` flag: a field is rewritten only when its stored
value differs from the requested one). -/
def applyPriorities (nq np : Option Int) (job : JobRecord) : JobRecord × Bool :=
  let s1 : JobRecord × Bool :=
    match nq with
    | some q =>
      if pyValNeInt job.queuePriority q then
        ({ job with queuePriority := some (.pint q) }, true)
      else (job, false)
    | none => (job, false)
  match np with
  | some p =>
    if pyValNeInt s1.1.processPriority p then
      ({ s1.1 with processPriority := some (.pint p) }, true)
    else s1
  | none => s1

/-- Process one directory entry of the update loop: non-`.job` files
and unparsable records are left alone (`continue`), matched records
are re-persisted only when a field changed.  The `Bool` says whether
the file was rewritten (and therefore counted).  (`json.dump` failures,
swallowed by the source's inner `except: pass`, are not modelled:
writes succeed.) -/
def updateEntry (pats : List Str) (nq np : Option Int)
    (e : Str × Option JobRecord) : (Str × Option JobRecord) × Bool :=
  if !endsWithS ".job".toList e.1 then (e, false)
  else
    match e.2 with
    | none => (e, false)
    | some job =>
      if !pats.any (fun pat => fnmatchCI (job.processName.getD (jobBase e.1)) pat) then
        (e, false)
      else
        let r := applyPriorities nq np job
        if r.2 then ((e.1, some r.1), true) else (e, false)

/-- The file loop of the update handler: new entries plus the number of
rewritten files. -/
def updateFiles (pats : List Str) (nq np : Option Int) :
    List (Str × Option JobRecord) → List (Str × Option JobRecord) × Nat
  | [] => ([], 0)
  | e :: rest =>
    let u := updateEntry pats nq np e
    let r := updateFiles pats nq np rest
    (u.1 :: r.1, (if u.2 then 1 else 0) + r.2)

/-- The queue loop of the update handler. -/
def updateRoot (pats : List Str) (nq np : Option Int) :
    BatchRoot → BatchRoot × Nat
  | [] => ([], 0)
  | q :: rest =>
    let r := updateRoot pats nq np rest
    if q.isDir then
      let f := updateFiles pats nq np q.files
      ({ q with files := f.1 } :: r.1, f.2 + r.2)
    else (q :: r.1, r.2)

/-- `h_update_batch_requests(args)`: output string and the new
`BATCH_ROOT` state. -/
def h_update_batch_requests (args : List Str) (root : BatchRoot) :
    Str × BatchRoot :=
  if args = [] then
    (errS "usage: update_batch_requests <process_name(s)> [options]".toList, root)
  else
    match parseUpdateArgs [] none none args with
    | .error m => (errS m, root)
    | .ok (pats, nq, np) =>
      if pats = [] || (nq = none && np = none) then
        (errS "update_batch_requests: specify process names and at least one priority option".toList,
         root)
      else
        let r := updateRoot pats nq np root
        (okS ("updated ".toList ++ (toString r.2).toList ++
              " batch request(s)".toList), r.1)

/-! ### Submission argument parsing (`_parse_batch_arguments`,
lines 1270–1321) -/

/-- The boolean flags `_parse_batch_arguments` recognises. -/
def batchFlagNames : List Str :=
  ["-privileged".toList, "-no_restart".toList, "-notify".toList]

/-- The value-taking options `_parse_batch_arguments` recognises. -/
def batchValueNames : List Str :=
  ["-process_name".toList, "-output_path".toList, "-process_priority".toList,
   "-queue_priority".toList, "-queue".toList, "-module".toList,
   "-current_dir".toList, "-defer_until".toList, "-control".toList,
   "-after".toList, "-cpu_limit".toList]

/-- The option dictionary built by `_parse_batch_arguments`: later
occurrences of the same option overwrite earlier ones
(`opts[key] = value`).  Keys are stored without the leading `-`. -/
abbrev BatchOpts := List (Str × Str)

/-- `opts.get(key)` on the option dictionary (last write wins). -/
def optGet (opts : BatchOpts) (key : Str) : Option Str :=
  (opts.reverse.find? (fun e => e.1 = key)).map (·.2)

/-- `token.lstrip('-')`: strip leading hyphens (the stored option key;
the subsequent `.replace('-', '_')` never fires on the fixed option
names above). -/
def stripDashes (s : Str) : Str := s.dropWhile (· = '-')

/-- `_parse_batch_arguments(args)`: the non-option tokens joined into
the command line, the option dictionary (flags store the marker value
`"True"`, modelled as a present key), or an error message. -/
def parse_batch_arguments (cmdParts : List Str) (opts : BatchOpts) :
    List Str → Except Str (Str × BatchOpts)
  | [] =>
    if cmdParts = [] then .error "missing command line".toList
    else .ok (intercalateChar ' ' cmdParts, opts)
  | tok :: rest =>
    if startsWithS "-".toList tok then
      if batchFlagNames.contains tok then
        parse_batch_arguments cmdParts (opts ++ [(stripDashes tok, "True".toList)]) rest
      else if batchValueNames.contains tok then
        match rest with
        | [] => .error ("missing value for ".toList ++ tok)
        | v :: rest' =>
          parse_batch_arguments cmdParts (opts ++ [(stripDashes tok, v)]) rest'
      else .error ("unknown option ".toList ++ tok)
    else parse_batch_arguments (cmdParts ++ [tok]) opts rest

/-! ## The resolver (`VOShell._resolve`, lines 2048–2093, and
`_split_cmd_args`, lines 197–213)

The command registry `self.commands` is an insertion-ordered dictionary,
modelled as an association list over an abstract handler type `H`.
`self.commands_ci` is the derived case-insensitive lookup table
`{k.lower(): (k, v)}`; on a (never occurring) lower-case collision the
later entry wins, hence the reversed search.  `self.aliases` is
`{k.lower(): v}` over the alias table; its keys are stored already
lower-cased.  `difflib.get_close_matches` (Python standard library, an
external collaborator) is abstracted as the `fuzzy` parameter. -/

/-- `self.commands_ci[key]`: case-insensitive lookup returning the
canonical name and handler.  Later registrations shadow earlier ones of
the same lower-cased name, as in a Python dict comprehension. -/
def ciLookup {H : Type} (cmds : List (Str × H)) (key : Str) : Option (Str × H) :=
  cmds.reverse.find? (fun e => lowerS e.1 = key)

/-- Membership in `self.commands_ci`. -/
def ciMember {H : Type} (cmds : List (Str × H)) (key : Str) : Bool :=
  cmds.any (fun e => lowerS e.1 = key)

/-- `_split_cmd_args(line, commands_ci)`: tokenize on whitespace; when
the first two tokens, lower-cased, name a registered command they form
the head, otherwise the first token alone does. -/
def _split_cmd_args {H : Type} (line : Str) (cmds : List (Str × H)) :
    Str × List Str :=
  match pySplitWs (pyStrip line) with
  | [] => ([], [])
  | [t] => (t, [])
  | t0 :: t1 :: rest =>
    let two := lowerS (t0 ++ ' ' :: t1)
    if ciMember cmds two then (t0 ++ ' ' :: t1, rest)
    else (t0, t1 :: rest)

/-- The prefix-or-glob candidate list of resolution step 5
(line 2083): every registered name, in registry order, whose
lower-cased form starts with the head or glob-matches it. -/
def resolveCandidates {H : Type} (cmds : List (Str × H)) (headLc : Str) :
    List Str :=
  (cmds.filter (fun e =>
     startsWithS headLc (lowerS e.1) || gMatch headLc (lowerS e.1))).map (·.1)

/-- The ambiguity diagnostic text (line 2088): the first 20 candidates,
with a truncation marker when more exist. -/
def ambiguousMsg (cands : List Str) : Str :=
  "Ambiguous command. Did you mean:\n  - ".toList ++
    intercalateS "\n  - ".toList (cands.take 20) ++
    (if cands.length > 20 then "\n  ... (more)".toList else [])

/-- Does alias pattern `a` (already lower-cased) rewrite the
lower-cased line `lineLc`?  (`line_lc == a or line_lc.startswith(a + " ")`.) -/
def aliasHits (a lineLc : Str) : Bool :=
  lineLc = a || startsWithS (a ++ [' ']) lineLc

/-- The result of `VOShell._resolve`: a command with arguments, a
diagnostic message (`(None, message, [])` in the source), or nothing
(`(None, None, [])`). -/
inductive ResolveResult (H : Type)
  | cmd (key : Str) (val : H) (args : List Str)
  | diag (msg : Str)
  | nores
  deriving DecidableEq

/-- `VOShell._resolve(line)`.  Steps, in source order: trim; alias
expansion (longest pattern first, one pass); full-line exact match;
head/argument split; exact head match; prefix/glob candidates (one ⇒
resolve, several ⇒ ambiguous); fuzzy suggestions. -/
def _resolve {H : Type} (aliases : List (Str × Str)) (cmds : List (Str × H))
    (fuzzy : Str → List Str → List Str) (line0 : Str) : ResolveResult H :=
  let line1 := pyStrip line0
  if line1 = [] then .nores
  else
    let keys := pySorted (fun a b => b.length ≤ a.length) (aliases.map (·.1))
    let line :=
      match keys.find? (fun a => aliasHits a (lowerS line1)) with
      | some a =>
        match (aliases.reverse.find? (fun e => e.1 = a)).map (·.2) with
        | some target => pyStrip (target ++ line1.drop a.length)
        | none => line1
      | none => line1
    let lineLc := lowerS line
    match ciLookup cmds lineLc with
    | some e => .cmd e.1 e.2 []
    | none =>
      let ha := _split_cmd_args line cmds
      if ha.1 = [] then .nores
      else
        let headLc := lowerS ha.1
        match ciLookup cmds headLc with
        | some e => .cmd e.1 e.2 ha.2
        | none =>
          let cands := resolveCandidates cmds headLc
          match cands with
          | [k] =>
            match (cmds.find? (fun e => e.1 = k)).map (·.2) with
            | some v => .cmd k v ha.2
            | none => .nores
          | _ :: _ :: _ => .diag (ambiguousMsg cands)
          | [] =>
            let sug := fuzzy ha.1 (sortStrs (cmds.map (·.1)))
            if sug ≠ [] then
              .diag ("Unknown command. Closest matches:\n  - ".toList ++
                     intercalateS "\n  - ".toList sug)
            else .nores

/-! ## Directory change (`h_change_current_dir`, lines 924–958) -/

/-- `h_change_current_dir(args)`: resolve the target, require it to be
an existing directory (`os.path.isdir`, abstracted as `isDirF`), then
require the normalized absolute target to lie under the normalized
absolute `stateDir` by a string-prefix check, and only then commit the
new working directory (the path relative to the sandbox root).
Returns the output string and the (possibly updated) working
directory. -/
def h_change_current_dir (isDirF : Str → Bool) (cwd stateDir curDir : Str)
    (args : List Str) : Str × Str :=
  match args with
  | [target] =>
    let newPath := resolve_state_path stateDir curDir target
    if !isDirF newPath then
      (errS ("change_current_dir: target directory does not exist: ".toList ++
             newPath), curDir)
    else
      let absState := pyAbspath cwd stateDir
      let absNew := pyAbspath cwd newPath
      if !startsWithS absState absNew then
        (errS ("change_current_dir: target ".toList ++ newPath ++
               " is outside STATE_DIR".toList), curDir)
      else
        let rel := pyRelpath cwd absNew absState
        let newCur := if rel = ".".toList then [] else rel
        (okS ("current directory set to ".toList ++ formatVosWd newCur), newCur)
  | _ => (errS "usage: change_current_dir <path>".toList, curDir)

/-! ## The built-in handler registry (`BUILTINS`, lines 1675–1741)

Each handler is a function of the argument list returning either a
string or an uncaught Python exception, modelled as
`Except Str Str` (`.error` carries the exception text).  Handlers make
blocking filesystem calls; every such call appears here as an oracle
field of `World`, of type `PyResult _` when the call can raise.  Where
the source wraps the call in `try/except`, the handler maps `.error`
to the corresponding `_err` string; where it does not, a failure
propagates.  Global state a handler *reads* is a `World` field;
mutations are not observed by these claims and are not modelled.
`os.path.isdir` / `os.path.exists` never raise and are plain boolean
oracles. -/

/-- Outcome of a Python call: a value, or an exception (its text). -/
abbrev PyResult (α : Type) := Except Str α

/-- The rows of `h_list_batch_requests`: (queue, process, queue-pri). -/
def listRowOf (queue fname : Str) : Option JobRecord → Str × Str × Str
  | some job =>
    (queue, job.processName.getD (jobBase fname), pyValCell job.queuePriority)
  | none => (queue, jobBase fname, [])

/-- Inner file loop of `h_list_batch_requests`. -/
def listRowsOfQueue (queue : Str) :
    List (Str × Option JobRecord) → List (Str × Str × Str)
  | [] => []
  | (fname, rec) :: rest =>
    if endsWithS ".job".toList fname then
      listRowOf queue fname rec :: listRowsOfQueue queue rest
    else listRowsOfQueue queue rest

/-- Queue loop of `h_list_batch_requests`. -/
def listRowsLoop (queueFilter : Option Str) : List QueueDir → List (Str × Str × Str)
  | [] => []
  | q :: rest =>
    if queueFiltered queueFilter q.name then listRowsLoop queueFilter rest
    else if !q.isDir then listRowsLoop queueFilter rest
    else listRowsOfQueue q.name (pySorted (fun a b => strLe a.1 b.1) q.files) ++
         listRowsLoop queueFilter rest

/-- All rows of `h_list_batch_requests`. -/
def listBatchRows (queueFilter : Option Str) (root : BatchRoot) :
    List (Str × Str × Str) :=
  listRowsLoop queueFilter (pySorted (fun a b => strLe a.name b.name) root)

/-- Left-pad-free column fill: `f"{s:<{wd}}"`. -/
def padRight (s : Str) (wd : Nat) : Str :=
  s ++ List.replicate (wd - s.length) ' '

/-- The column widths of `table()`: header widths, widened by cells. -/
def colWidths (headers : List Str) (rows : List (List Str)) : List Nat :=
  rows.foldl
    (fun ws r => List.zipWith (fun wd cell => max wd cell.length) ws r)
    (headers.map (·.length))

/-- The `table()` renderer (lines 159–167). -/
def tableRender (headers : List Str) (rows : List (List Str)) : Str :=
  let ws := colWidths headers rows
  let line := intercalateS "  ".toList (List.zipWith padRight headers ws)
  let body := intercalateChar '\n'
    (rows.map (fun r => intercalateS "  ".toList (List.zipWith padRight r ws)))
  line ++ '\n' :: List.replicate line.length '-' ++
    (if body ≠ [] then '\n' :: body else [])

/-- The process-wide state and I/O oracles the built-in handlers
consult.  Result-typed fields stand for the whole body of the
corresponding handler's filesystem block; `PyResult` fields can raise. -/
structure World where
  cwd : Str
  stateDir : Str
  curDir : Str
  batchRootPath : Str
  lastError : Option Str
  notices : List Str
  libraryPaths : List Str
  currentProfile : Str
  profiles : List Str
  nowStr : Str
  batchRoot : BatchRoot
  fsFuel : Nat
  isDir : Str → Bool
  pathExists : Str → Bool
  listDirFmt : Str → PyResult Str
  createFileIO : Str → PyResult Unit
  copyFileIO : Str → Str → PyResult Unit
  moveFileIO : Str → Str → PyResult Unit
  compareFilesIO : Str → Str → PyResult Str
  deleteFileIO : Str → PyResult Unit
  createDirIO : Str → PyResult Unit
  copyDirIO : Str → Str → PyResult Unit
  moveDirIO : Str → Str → PyResult Unit
  deleteDirIO : Str → PyResult Unit
  renameIO : Str → Str → PyResult Unit
  displayFileIO : Str → PyResult Str
  fileStatusIO : Str → PyResult Str
  dirStatusIO : Str → PyResult Str
  diskUsageIO : Str → PyResult Str
  dumpFileIO : Str → PyResult Str
  listUsersIO : PyResult Str
  compareDirsResult : Str → Str → Str
  deviceInfoIO : PyResult Str
  diskInfoIO : PyResult Str
  systemUsageIO : PyResult Str
  termParamsIO : PyResult Str
  locateFilesResult : Str → Str
  locateLargeFilesResult : Int → Str
  locateLargeDirsResult : Int → Str
  parseSizeO : Str → Option Int
  writeJobIO : Str → PyResult Unit
  txtCommandsIO : PyResult (List Str)
  commandsReport : List Str → Str

/-- The calling convention of a registered handler. -/
abbrev HandlerFn := World → List Str → PyResult Str

/-- Current directory for file operations
(`os.path.join(STATE_DIR, CURRENT_DIR) if CURRENT_DIR else STATE_DIR`). -/
def curPath (w : World) : Str :=
  if w.curDir ≠ [] then pyJoin w.stateDir w.curDir else w.stateDir

/-- `h_list` (lines 379–411). -/
def h_list : HandlerFn := fun w args =>
  match args with
  | _ :: _ :: _ => .ok (errS "usage: list [path]".toList)
  | _ =>
    let target := args.headD []
    let path := if target = [] then curPath w
                else resolve_state_path w.stateDir w.curDir target
    if !w.pathExists path then .ok (errS ("path not found: ".toList ++ path))
    else if w.isDir path then
      match w.listDirFmt path with
      | .ok s => .ok s
      | .error e => .ok (errS ("list: ".toList ++ e))
    else .ok (pyBasename path)

/-- `h_create_file` (lines 227–241). -/
def h_create_file : HandlerFn := fun w args =>
  match args with
  | [p] =>
    let path := resolve_state_path w.stateDir w.curDir p
    match w.createFileIO path with
    | .ok _ => .ok (okS ("created file: ".toList ++ path))
    | .error e => .ok (errS ("create_file: ".toList ++ e))
  | _ => .ok (errS "usage: create_file <path>".toList)

/-- `h_copy_file` (lines 244–258). -/
def h_copy_file : HandlerFn := fun w args =>
  match args with
  | [a, b] =>
    let src := resolve_state_path w.stateDir w.curDir a
    let dst := resolve_state_path w.stateDir w.curDir b
    match w.copyFileIO src dst with
    | .ok _ => .ok (okS ("copied ".toList ++ src ++ " -> ".toList ++ dst))
    | .error e => .ok (errS ("copy_file: ".toList ++ e))
  | _ => .ok (errS "usage: copy_file <src> <dst>".toList)

/-- `h_move_file` (lines 261–273). -/
def h_move_file : HandlerFn := fun w args =>
  match args with
  | [a, b] =>
    let src := resolve_state_path w.stateDir w.curDir a
    let dst := resolve_state_path w.stateDir w.curDir b
    match w.moveFileIO src dst with
    | .ok _ => .ok (okS ("moved ".toList ++ src ++ " -> ".toList ++ dst))
    | .error e => .ok (errS ("move_file: ".toList ++ e))
  | _ => .ok (errS "usage: move_file <src> <dst>".toList)

/-- `h_compare_files` (lines 276–293): the byte comparison happens
inside `try` and produces the result string. -/
def h_compare_files : HandlerFn := fun w args =>
  match args with
  | [a, b] =>
    let pa := resolve_state_path w.stateDir w.curDir a
    let pb := resolve_state_path w.stateDir w.curDir b
    match w.compareFilesIO pa pb with
    | .ok s => .ok s
    | .error e => .ok (errS ("compare_files: ".toList ++ e))
  | _ => .ok (errS "usage: compare_files <a> <b>".toList)

/-- `h_delete_file` (lines 296–306). -/
def h_delete_file : HandlerFn := fun w args =>
  match args with
  | [p] =>
    let path := resolve_state_path w.stateDir w.curDir p
    match w.deleteFileIO path with
    | .ok _ => .ok (okS ("deleted ".toList ++ path))
    | .error e => .ok (errS ("delete_file: ".toList ++ e))
  | _ => .ok (errS "usage: delete_file <path>".toList)

/-- `h_create_dir` (lines 309–318). -/
def h_create_dir : HandlerFn := fun w args =>
  match args with
  | [p] =>
    let path := resolve_state_path w.stateDir w.curDir p
    match w.createDirIO path with
    | .ok _ => .ok (okS ("created directory: ".toList ++ path))
    | .error e => .ok (errS ("create_dir: ".toList ++ e))
  | _ => .ok (errS "usage: create_dir <path>".toList)

/-- `h_copy_dir` (lines 321–332). -/
def h_copy_dir : HandlerFn := fun w args =>
  match args with
  | [a, b] =>
    let src := resolve_state_path w.stateDir w.curDir a
    let dst := resolve_state_path w.stateDir w.curDir b
    match w.copyDirIO src dst with
    | .ok _ => .ok (okS ("copied directory ".toList ++ src ++ " -> ".toList ++ dst))
    | .error e => .ok (errS ("copy_dir: ".toList ++ e))
  | _ => .ok (errS "usage: copy_dir <src> <dst>".toList)

/-- `h_move_dir` (lines 335–347). -/
def h_move_dir : HandlerFn := fun w args =>
  match args with
  | [a, b] =>
    let src := resolve_state_path w.stateDir w.curDir a
    let dst := resolve_state_path w.stateDir w.curDir b
    match w.moveDirIO src dst with
    | .ok _ => .ok (okS ("moved directory ".toList ++ src ++ " -> ".toList ++ dst))
    | .error e => .ok (errS ("move_dir: ".toList ++ e))
  | _ => .ok (errS "usage: move_dir <src> <dst>".toList)

/-- `h_delete_dir` (lines 350–359). -/
def h_delete_dir : HandlerFn := fun w args =>
  match args with
  | [p] =>
    let path := resolve_state_path w.stateDir w.curDir p
    match w.deleteDirIO path with
    | .ok _ => .ok (okS ("deleted directory: ".toList ++ path))
    | .error e => .ok (errS ("delete_dir: ".toList ++ e))
  | _ => .ok (errS "usage: delete_dir <path>".toList)

/-- `h_rename` (lines 362–374). -/
def h_rename : HandlerFn := fun w args =>
  match args with
  | [a, b] =>
    let src := resolve_state_path w.stateDir w.curDir a
    let dst := resolve_state_path w.stateDir w.curDir b
    match w.renameIO src dst with
    | .ok _ => .ok (okS ("renamed ".toList ++ src ++ " -> ".toList ++ dst))
    | .error e => .ok (errS ("rename: ".toList ++ e))
  | _ => .ok (errS "usage: rename <src> <dst>".toList)

/-- `h_display_file` (lines 516–545): the directory check is inside
`try` but raises nothing; reading and wrapping is the oracle. -/
def h_display_file : HandlerFn := fun w args =>
  match args with
  | [p] =>
    let path := resolve_state_path w.stateDir w.curDir p
    if w.isDir path then
      .ok (errS ("display_file: ".toList ++ path ++ " is a directory".toList))
    else
      match w.displayFileIO path with
      | .ok s => .ok s
      | .error e => .ok (errS ("display_file: ".toList ++ e))
  | _ => .ok (errS "usage: display_file <path>".toList)

/-- `h_display_file_status` (lines 548–571). -/
def h_display_file_status : HandlerFn := fun w args =>
  match args with
  | [p] =>
    let path := resolve_state_path w.stateDir w.curDir p
    match w.fileStatusIO path with
    | .ok s => .ok s
    | .error e => .ok (errS ("display_file_status: ".toList ++ e))
  | _ => .ok (errS "usage: display_file_status <path>".toList)

/-- `h_display_dir_status` (lines 574–607): zero or one argument; with
none the summary is taken over `STATE_DIR` itself. -/
def h_display_dir_status : HandlerFn := fun w args =>
  match args with
  | _ :: _ :: _ => .ok (errS "usage: display_dir_status [path]".toList)
  | _ =>
    let target := args.headD []
    let path := if target = [] then w.stateDir
                else resolve_state_path w.stateDir w.curDir target
    if !w.isDir path then
      .ok (errS ("display_dir_status: ".toList ++ path ++
                 " is not a directory".toList))
    else
      match w.dirStatusIO path with
      | .ok s => .ok s
      | .error e => .ok (errS ("display_dir_status: ".toList ++ e))

/-- `h_display_disk_usage` (lines 610–638). -/
def h_display_disk_usage : HandlerFn := fun w args =>
  match args with
  | _ :: _ :: _ => .ok (errS "usage: display_disk_usage [path]".toList)
  | _ =>
    let target := args.headD []
    let path := if target = [] then w.stateDir
                else resolve_state_path w.stateDir w.curDir target
    match w.diskUsageIO path with
    | .ok s => .ok s
    | .error e => .ok (errS ("display_disk_usage: ".toList ++ e))

/-- `h_dump_file` (lines 641–665). -/
def h_dump_file : HandlerFn := fun w args =>
  match args with
  | [p] =>
    let path := resolve_state_path w.stateDir w.curDir p
    if w.isDir path then
      .ok (errS ("dump_file: ".toList ++ path ++ " is a directory".toList))
    else
      match w.dumpFileIO path with
      | .ok s => .ok s
      | .error e => .ok (errS ("dump_file: ".toList ++ e))
  | _ => .ok (errS "usage: dump_file <path>".toList)

/-- `h_list_users` (lines 668–687): any failure falls back to the fixed
sample list. -/
def h_list_users : HandlerFn := fun w args =>
  match args with
  | [] =>
    match w.listUsersIO with
    | .ok s => .ok s
    | .error _ => .ok "root\nguest\nuser".toList
  | _ => .ok (errS "usage: list_users".toList)

/-- `h_list_library_paths` (lines 690–701). -/
def h_list_library_paths : HandlerFn := fun w args =>
  match args with
  | [] =>
    if w.libraryPaths = [] then .ok "(no library paths configured)".toList
    else .ok (intercalateChar '\n' w.libraryPaths)
  | _ => .ok (errS "usage: list_library_paths".toList)

/-- `h_add_library_path` (lines 704–716). -/
def h_add_library_path : HandlerFn := fun w args =>
  match args with
  | [p] =>
    if !w.libraryPaths.contains p then
      .ok (okS ("added library path: ".toList ++ p))
    else .ok (okS ("library path already present: ".toList ++ p))
  | _ => .ok (errS "usage: add_library_path <path>".toList)

/-- `h_delete_library_path` (lines 719–732). -/
def h_delete_library_path : HandlerFn := fun w args =>
  match args with
  | [p] =>
    if w.libraryPaths.contains p then
      .ok (okS ("removed library path: ".toList ++ p))
    else .ok (errS ("library path not found: ".toList ++ p))
  | _ => .ok (errS "usage: delete_library_path <path>".toList)

/-- `h_set_language` (lines 735–745). -/
def h_set_language : HandlerFn := fun _ args =>
  match args with
  | [l] => .ok (okS ("language set to ".toList ++ l))
  | _ => .ok (errS "usage: set_language <language_code>".toList)

/-- `h_set_time_zone` (lines 748–757). -/
def h_set_time_zone : HandlerFn := fun _ args =>
  match args with
  | [z] => .ok (okS ("time zone set to ".toList ++ z))
  | _ => .ok (errS "usage: set_time_zone <time_zone>".toList)

/-- `h_set_line_wrap_width` (lines 760–776): `int(...)` inside
`try/except ValueError`. -/
def h_set_line_wrap_width : HandlerFn := fun _ args =>
  match args with
  | [n] =>
    match pyInt? n with
    | none => .ok (errS "set_line_wrap_width: invalid number".toList)
    | some v =>
      if v ≤ 0 then .ok (errS "line wrap width must be positive".toList)
      else .ok (okS ("line wrap width set to ".toList ++ (toString v).toList))
  | _ => .ok (errS "usage: set_line_wrap_width <number>".toList)

/-- `h_profile` (lines 779–795). -/
def h_profile : HandlerFn := fun w args =>
  match args with
  | [] => .ok ("Current profile: ".toList ++ w.currentProfile)
  | [n] => .ok (okS ("profile set to ".toList ++ n))
  | _ => .ok (errS "usage: profile [name]".toList)

/-- `h_add_profile` (lines 798–810). -/
def h_add_profile : HandlerFn := fun w args =>
  match args with
  | [n] =>
    if w.profiles.contains n then
      .ok (okS ("profile already exists: ".toList ++ n))
    else .ok (okS ("added profile: ".toList ++ n))
  | _ => .ok (errS "usage: add_profile <name>".toList)

/-- `h_compare_dirs` (lines 813–854): the walks never raise
(`os.walk` swallows listing errors, `getsize` is guarded), so the
comparison result is an infallible oracle. -/
def h_compare_dirs : HandlerFn := fun w args =>
  match args with
  | [a, b] =>
    let d1 := resolve_state_path w.stateDir w.curDir a
    let d2 := resolve_state_path w.stateDir w.curDir b
    if !w.isDir d1 || !w.isDir d2 then
      .ok (errS "both arguments must be directories".toList)
    else .ok (w.compareDirsResult d1 d2)
  | _ => .ok (errS "usage: compare_dirs <dir1> <dir2>".toList)

/-- `h_clone_dir` (lines 857–862): delegates to `h_copy_dir`. -/
def h_clone_dir : HandlerFn := fun w args => h_copy_dir w args

/-- `h_clone_file` (lines 865–870): delegates to `h_copy_file`. -/
def h_clone_file : HandlerFn := fun w args => h_copy_file w args

/-- `h_display_current_dir` (lines 873–888). -/
def h_display_current_dir : HandlerFn := fun w args =>
  match args with
  | [] =>
    if w.curDir = [] then .ok "Current directory: >".toList
    else .ok ("Current directory: ".toList ++ formatVosWd w.curDir)
  | _ => .ok (errS "usage: display_current_dir".toList)

/-- `h_display_current_module` (lines 891–899). -/
def h_display_current_module : HandlerFn := fun _ args =>
  match args with
  | [] => .ok "Current module: vos-emulator".toList
  | _ => .ok (errS "usage: display_current_module".toList)

/-- `h_display_date_time` (lines 902–910). -/
def h_display_date_time : HandlerFn := fun w args =>
  match args with
  | [] => .ok w.nowStr
  | _ => .ok (errS "usage: display_date_time".toList)

/-- `h_display_line` (lines 913–921). -/
def h_display_line : HandlerFn := fun _ args =>
  match args with
  | [] => .ok (errS "usage: display_line <text>".toList)
  | _ => .ok (intercalateChar ' ' args)

/-- `h_display_device_info` (lines 961–982). -/
def h_display_device_info : HandlerFn := fun w args =>
  match args with
  | [] =>
    match w.deviceInfoIO with
    | .ok s => .ok s
    | .error e => .ok (errS ("display_device_info: ".toList ++ e))
  | _ => .ok (errS "usage: display_device_info".toList)

/-- `h_display_disk_info` (lines 985–1010). -/
def h_display_disk_info : HandlerFn := fun w args =>
  match args with
  | [] =>
    match w.diskInfoIO with
    | .ok s => .ok s
    | .error e => .ok (errS ("display_disk_info: ".toList ++ e))
  | _ => .ok (errS "usage: display_disk_info".toList)

/-- `h_display_system_usage` (lines 1013–1066). -/
def h_display_system_usage : HandlerFn := fun w args =>
  match args with
  | [] =>
    match w.systemUsageIO with
    | .ok s => .ok s
    | .error e => .ok (errS ("display_system_usage: ".toList ++ e))
  | _ => .ok (errS "usage: display_system_usage".toList)

/-- `h_display_error` (lines 1069–1079): an unset (or empty, hence
falsy) last error reads as "No errors.". -/
def h_display_error : HandlerFn := fun w args =>
  match args with
  | [] =>
    match w.lastError with
    | some m => if m = [] then .ok "No errors.".toList
                else .ok ("Last error: ".toList ++ m)
    | none => .ok "No errors.".toList
  | _ => .ok (errS "usage: display_error".toList)

/-- `h_display_notices` (lines 1082–1095). -/
def h_display_notices : HandlerFn := fun w args =>
  match args with
  | [] =>
    if w.notices = [] then .ok "(no notices)".toList
    else .ok (intercalateChar '\n' w.notices)
  | _ => .ok (errS "usage: display_notices".toList)

/-- `h_display_terminal_parameters` (lines 1098–1110). -/
def h_display_terminal_parameters : HandlerFn := fun w args =>
  match args with
  | [] =>
    match w.termParamsIO with
    | .ok s => .ok s
    | .error _ => .ok "Terminal parameters not available".toList
  | _ => .ok (errS "usage: display_terminal_parameters".toList)

/-- `h_locate_files` (lines 1142–1158): the walk never raises. -/
def h_locate_files : HandlerFn := fun w args =>
  match args with
  | [p] => .ok (w.locateFilesResult (lowerS p))
  | _ => .ok (errS "usage: locate_files <pattern>".toList)

/-- `h_locate_large_files` (lines 1161–1184).  `_parse_size` returns
`None` on any failure (its own `try/except`); the float arithmetic it
performs is abstracted into the oracle. -/
def h_locate_large_files : HandlerFn := fun w args =>
  match args with
  | [s] =>
    match w.parseSizeO s with
    | none => .ok (errS "locate_large_files: invalid size".toList)
    | some t => .ok (w.locateLargeFilesResult t)
  | _ => .ok (errS "usage: locate_large_files <size>".toList)

/-- `h_locate_large_dirs` (lines 1187–1211). -/
def h_locate_large_dirs : HandlerFn := fun w args =>
  match args with
  | [s] =>
    match w.parseSizeO s with
    | none => .ok (errS "locate_large_dirs: invalid size".toList)
    | some t => .ok (w.locateLargeDirsResult t)
  | _ => .ok (errS "usage: locate_large_dirs <size>".toList)

/-- `h_batch` (lines 1324–1388).  A `process_name` option with a falsy
(empty) value falls back to derivation (`opts.get(...) or ...`); a
derivation on an all-whitespace command line is the source's uncaught
`IndexError`, propagated as `.error`.  The record's contents are
written through `writeJobIO` (keyed by the generated path); the job
dictionary itself does not influence the returned string. -/
def h_batch : HandlerFn := fun w args =>
  match parse_batch_arguments [] [] args with
  | .error m => .ok (errS ("batch: ".toList ++ m))
  | .ok (commandLine, opts) =>
    let pn0 := optGet opts "process_name".toList
    let derived : PyResult Str :=
      if (pn0.getD []) ≠ [] then .ok (pn0.getD [])
      else
        match derive_process_name commandLine with
        | some n => .ok n
        | none => .error "list index out of range".toList
    match derived with
    | .error e => .error e
    | .ok processName =>
      let queueName := (optGet opts "queue".toList).getD "normal".toList
      let ppOk : PyResult (Option Int) :=
        match optGet opts "process_priority".toList with
        | none => .ok none
        | some v =>
          match pyInt? v with
          | none => .error []
          | some n => .ok (some n)
      match ppOk with
      | .error _ => .ok (errS "batch: invalid process_priority".toList)
      | .ok _ =>
        let qpOk : PyResult Int :=
          match optGet opts "queue_priority".toList with
          | none => .ok 4
          | some v =>
            match pyInt? v with
            | none => .error []
            | some n => .ok n
        match qpOk with
        | .error _ => .ok (errS "batch: invalid queue_priority".toList)
        | .ok _ =>
          let jobPath := generate_unique_job_path w.pathExists w.batchRootPath
            w.fsFuel queueName processName
          match w.writeJobIO jobPath with
          | .ok _ =>
            .ok (okS ("queued batch request ".toList ++ processName ++
                      " in queue '".toList ++ queueName ++ "'".toList))
          | .error e => .ok (errS ("batch: failed to store job: ".toList ++ e))

/-- `h_display_batch_status` (lines 1391–1424): the whole enumeration
is wrapped in `try`, and over the modelled directory structure it
cannot fail. -/
def h_display_batch_status : HandlerFn := fun w args =>
  .ok (let rows := displayBatchRows args.head? w.batchRoot
       if rows = [] then "(no batch requests)".toList
       else tableRender
         ["Queue".toList, "Process".toList, "QueuePri".toList,
          "ProcPri".toList, "Status".toList]
         (rows.map (fun r => [r.1, r.2.1, r.2.2.1, r.2.2.2.1, r.2.2.2.2])))

/-- `h_list_batch_requests` (lines 1427–1458). -/
def h_list_batch_requests : HandlerFn := fun w args =>
  .ok (let rows := listBatchRows args.head? w.batchRoot
       if rows = [] then "(no batch requests)".toList
       else tableRender
         ["Queue".toList, "Process".toList, "QueuePri".toList]
         (rows.map (fun r => [r.1, r.2.1, r.2.2])))

/-- `h_show_commands_status` (lines 1589–1656).  After the argument
guard it calls `load_txt_commands()` (line 1601) **outside any
`try/except`**: `load_txt_commands` (lines 1849–1859) opens and reads
`vos_commands.txt` behind a bare `os.path.exists` check, so an
`OSError` (e.g. permission denied) or `UnicodeDecodeError` raised by
the open/read propagates out of the handler.  `txtCommandsIO` is that
call's outcome: the loaded command names, or the escaping exception.
The remainder of the report assembly is guarded (`VOShell()`
construction in `try`, help-text lookups with non-empty defaults) and
is the infallible `commandsReport` oracle over the loaded names. -/
def h_show_commands_status : HandlerFn := fun w args =>
  match args with
  | [] =>
    match w.txtCommandsIO with
    | .ok names => .ok (w.commandsReport names)
    | .error e => .error e
  | _ => .ok (errS "usage: show commands status".toList)

/-- The `BUILTINS` registry (lines 1675–1741), in source order.  The
stateful handlers (`change_current_dir` and the batch store operations)
appear as projections of their explicit-state cores defined above. -/
def BUILTINS : List (Str × HandlerFn) :=
  [("list".toList, h_list),
   ("create_file".toList, h_create_file),
   ("copy_file".toList, h_copy_file),
   ("move_file".toList, h_move_file),
   ("compare_files".toList, h_compare_files),
   ("delete_file".toList, h_delete_file),
   ("create_dir".toList, h_create_dir),
   ("copy_dir".toList, h_copy_dir),
   ("move_dir".toList, h_move_dir),
   ("delete_dir".toList, h_delete_dir),
   ("rename".toList, h_rename),
   ("display_file".toList, h_display_file),
   ("display_file_status".toList, h_display_file_status),
   ("display_dir_status".toList, h_display_dir_status),
   ("display_disk_usage".toList, h_display_disk_usage),
   ("dump_file".toList, h_dump_file),
   ("list_users".toList, h_list_users),
   ("list_library_paths".toList, h_list_library_paths),
   ("add_library_path".toList, h_add_library_path),
   ("delete_library_path".toList, h_delete_library_path),
   ("set_language".toList, h_set_language),
   ("set_time_zone".toList, h_set_time_zone),
   ("set_line_wrap_width".toList, h_set_line_wrap_width),
   ("profile".toList, h_profile),
   ("add_profile".toList, h_add_profile),
   ("compare_dirs".toList, h_compare_dirs),
   ("clone_dir".toList, h_clone_dir),
   ("clone_file".toList, h_clone_file),
   ("display_current_dir".toList, h_display_current_dir),
   ("display_current_module".toList, h_display_current_module),
   ("display_date_time".toList, h_display_date_time),
   ("display_line".toList, h_display_line),
   ("change_current_dir".toList, fun w args =>
     .ok (h_change_current_dir w.isDir w.cwd w.stateDir w.curDir args).1),
   ("display_device_info".toList, h_display_device_info),
   ("display_disk_info".toList, h_display_disk_info),
   ("display_system_usage".toList, h_display_system_usage),
   ("display_error".toList, h_display_error),
   ("display_notices".toList, h_display_notices),
   ("display_terminal_parameters".toList, h_display_terminal_parameters),
   ("locate_files".toList, h_locate_files),
   ("locate_large_files".toList, h_locate_large_files),
   ("locate_large_dirs".toList, h_locate_large_dirs),
   ("batch".toList, h_batch),
   ("display_batch_status".toList, h_display_batch_status),
   ("list_batch_requests".toList, h_list_batch_requests),
   ("cancel_batch_requests".toList, fun w args =>
     .ok (h_cancel_batch_requests args w.batchRoot).1),
   ("update_batch_requests".toList, fun w args =>
     .ok (h_update_batch_requests args w.batchRoot).1),
   ("show commands status".toList, h_show_commands_status),
   ("show commands report".toList, h_show_commands_status)]

/-! ## Split / join / strip lemmas -/

theorem splitOnChar_ne_nil (sep : Char) (l : Str) : splitOnChar sep l ≠ [] := by
  cases l with
  | nil => simp [splitOnChar]
  | cons c rest =>
    rw [splitOnChar]
    split
    · simp
    · cases h : splitOnChar sep rest <;> simp

theorem not_mem_of_mem_splitOnChar {sep : Char} {l s : Str}
    (hs : s ∈ splitOnChar sep l) : sep ∉ s := by
  induction l generalizing s with
  | nil =>
    simp [splitOnChar] at hs
    simp [hs]
  | cons c rest ih =>
    rw [splitOnChar] at hs
    split at hs
    · next hc =>
      rcases List.mem_cons.mp hs with h | h
      · simp [h]
      · exact ih h
    · next hc =>
      cases hsp : splitOnChar sep rest with
      | nil => exact absurd hsp (splitOnChar_ne_nil sep rest)
      | cons f fs =>
        rw [hsp] at hs
        rcases List.mem_cons.mp hs with h | h
        · subst h
          have hf : sep ∉ f := ih (by rw [hsp]; exact List.mem_cons_self f fs)
          simp [List.mem_cons]
          constructor
          · intro he
            exact hc he.symm
          · exact hf
        · exact ih (by rw [hsp]; exact List.mem_cons_of_mem f h)

theorem mem_of_mem_splitOnChar {sep c : Char} {l s : Str}
    (hs : s ∈ splitOnChar sep l) (hc : c ∈ s) : c ∈ l := by
  induction l generalizing s with
  | nil =>
    simp [splitOnChar] at hs
    subst hs
    simp at hc
  | cons a rest ih =>
    rw [splitOnChar] at hs
    split at hs
    · next ha =>
      rcases List.mem_cons.mp hs with h | h
      · subst h
        simp at hc
      · exact List.mem_cons_of_mem a (ih h hc)
    · next ha =>
      cases hsp : splitOnChar sep rest with
      | nil => exact absurd hsp (splitOnChar_ne_nil sep rest)
      | cons f fs =>
        rw [hsp] at hs
        rcases List.mem_cons.mp hs with h | h
        · subst h
          rcases List.mem_cons.mp hc with h' | h'
          · subst h'
            exact List.mem_cons_self c rest
          · exact List.mem_cons_of_mem a
              (ih (by rw [hsp]; exact List.mem_cons_self f fs) h')
        · exact List.mem_cons_of_mem a
            (ih (by rw [hsp]; exact List.mem_cons_of_mem f h) hc)

theorem intercalateChar_splitOnChar (sep : Char) (l : Str) :
    intercalateChar sep (splitOnChar sep l) = l := by
  induction l with
  | nil => simp [splitOnChar, intercalateChar]
  | cons c rest ih =>
    rw [splitOnChar]
    split
    · next hc =>
      subst hc
      cases hsp : splitOnChar c rest with
      | nil => exact absurd hsp (splitOnChar_ne_nil c rest)
      | cons f fs =>
        rw [hsp] at ih
        simp [intercalateChar, ih]
    · next hc =>
      cases hsp : splitOnChar sep rest with
      | nil => exact absurd hsp (splitOnChar_ne_nil sep rest)
      | cons f fs =>
        rw [hsp] at ih
        cases fs with
        | nil => simpa [intercalateChar] using congrArg (c :: ·) ih
        | cons g gs => simpa [intercalateChar] using congrArg (c :: ·) ih

theorem splitOnChar_sepfree {sep : Char} {s : Str} (h : sep ∉ s) :
    splitOnChar sep s = [s] := by
  induction s with
  | nil => simp [splitOnChar]
  | cons c cs ih =>
    have hc : ¬ c = sep := fun he => h (he ▸ List.mem_cons_self c cs)
    rw [splitOnChar]
    simp only [if_neg hc]
    rw [ih (fun hm => h (List.mem_cons_of_mem c hm))]

theorem splitOnChar_append_sep {sep : Char} {s t : Str} (h : sep ∉ s) :
    splitOnChar sep (s ++ sep :: t) = s :: splitOnChar sep t := by
  induction s with
  | nil => simp [splitOnChar]
  | cons c cs ih =>
    have hc : ¬ c = sep := fun he => h (he ▸ List.mem_cons_self c cs)
    rw [List.cons_append, splitOnChar]
    simp only [if_neg hc]
    rw [ih (fun hm => h (List.mem_cons_of_mem c hm))]

theorem splitOnChar_intercalateChar {sep : Char} (ls : List Str)
    (h : ls ≠ []) (hf : ∀ s ∈ ls, sep ∉ s) :
    splitOnChar sep (intercalateChar sep ls) = ls := by
  induction ls with
  | nil => exact absurd rfl h
  | cons s rest ih =>
    cases rest with
    | nil =>
      simp only [intercalateChar]
      exact splitOnChar_sepfree (hf s (List.mem_cons_self s []))
    | cons s2 rest' =>
      rw [show intercalateChar sep (s :: s2 :: rest')
            = s ++ sep :: intercalateChar sep (s2 :: rest') from rfl]
      rw [splitOnChar_append_sep (hf s (List.mem_cons_self s _))]
      rw [ih (by simp) (fun x hx => hf x (List.mem_cons_of_mem s hx))]

theorem mem_intercalateChar {sep c : Char} {ls : List Str}
    (h : c ∈ intercalateChar sep ls) : c = sep ∨ ∃ s ∈ ls, c ∈ s := by
  induction ls with
  | nil => simp [intercalateChar] at h
  | cons s rest ih =>
    cases rest with
    | nil =>
      simp only [intercalateChar] at h
      exact Or.inr ⟨s, List.mem_cons_self s [], h⟩
    | cons s2 rest' =>
      rw [show intercalateChar sep (s :: s2 :: rest')
            = s ++ sep :: intercalateChar sep (s2 :: rest') from rfl] at h
      rcases List.mem_append.mp h with h' | h'
      · exact Or.inr ⟨s, List.mem_cons_self s _, h'⟩
      · rcases List.mem_cons.mp h' with h'' | h''
        · exact Or.inl h''
        · rcases ih h'' with h3 | ⟨x, hx, hcx⟩
          · exact Or.inl h3
          · exact Or.inr ⟨x, List.mem_cons_of_mem s hx, hcx⟩

theorem dropWhile_eq_self_of_all {p : Char → Bool} {s : Str}
    (h : ∀ c ∈ s, ¬ p c) : s.dropWhile p = s := by
  cases s with
  | nil => rfl
  | cons c cs =>
    rw [List.dropWhile_cons]
    simp [h c (List.mem_cons_self c cs)]

theorem stripS_eq_self_of_all {p : Char → Bool} {s : Str}
    (h : ∀ c ∈ s, ¬ p c) : stripS p s = s := by
  unfold stripS dropRightWhileS
  rw [dropWhile_eq_self_of_all h]
  rw [dropWhile_eq_self_of_all (fun c hc => h c (List.mem_reverse.mp hc))]
  exact List.reverse_reverse s

theorem pyIsAbs_cons (c : Char) (l : Str) : pyIsAbs (c :: l) = decide (c = '/') := by
  simp [pyIsAbs, startsWithS, eq_comm]

theorem not_endsSlash_append {x s : Str} (hs : s ≠ []) (hf : '/' ∉ s) :
    endsWithS "/".toList (x ++ s) = false := by
  unfold endsWithS
  rw [List.reverse_append]
  cases hr : s.reverse with
  | nil => exact absurd (List.reverse_eq_nil_iff.mp hr) hs
  | cons c t =>
    have hc : c ∈ s := by
      rw [← List.mem_reverse, hr]
      exact List.mem_cons_self c t
    have : ¬ ('/' = c) := fun he => hf (he ▸ hc)
    simp [startsWithS, this]

theorem pyJoin_seg_step (a s t : Str) (hs : s ≠ []) (hsf : '/' ∉ s)
    (ht : pyIsAbs t = false) :
    pyJoin (pyJoin a s) t = pyJoin a (s ++ '/' :: t) := by
  obtain ⟨c, cs, rfl⟩ : ∃ c cs, s = c :: cs := by
    cases s with
    | nil => exact absurd rfl hs
    | cons c cs => exact ⟨c, cs, rfl⟩
  have hc : ¬ (c = '/') := fun he => hsf (he ▸ List.mem_cons_self c cs)
  have habs_s : pyIsAbs (c :: cs) = false := by
    rw [pyIsAbs_cons]
    simp [hc]
  have habs_big : pyIsAbs ((c :: cs) ++ '/' :: t) = false := by
    rw [List.cons_append, pyIsAbs_cons]
    simp [hc]
  show pyJoin (pyJoin a (c :: cs)) t = pyJoin a ((c :: cs) ++ '/' :: t)
  unfold pyJoin
  rw [habs_s, habs_big, ht]
  simp only [Bool.false_eq_true, if_false]
  by_cases hbr : a = [] || endsWithS "/".toList a
  · rw [if_pos hbr, if_pos hbr]
    have hne : a ++ c :: cs ≠ [] := by simp
    have hend : endsWithS "/".toList (a ++ c :: cs) = false :=
      not_endsSlash_append hs hsf
    simp only [hne, hend, Bool.or_false, decide_False, Bool.false_eq_true, if_false]
    simp
  · rw [if_neg hbr, if_neg hbr]
    have hne : a ++ '/' :: c :: cs ≠ [] := by simp
    have hend : endsWithS "/".toList (a ++ '/' :: c :: cs) = false := by
      have : a ++ '/' :: c :: cs = (a ++ ['/']) ++ c :: cs := by simp
      rw [this]
      exact not_endsSlash_append hs hsf
    simp only [hne, hend, Bool.or_false, decide_False, Bool.false_eq_true, if_false]
    simp

theorem pyIsAbs_intercalate_cons {s2 : Str} (rest : List Str)
    (h : s2 ≠ []) (hf : '/' ∉ s2) :
    pyIsAbs (intercalateChar '/' (s2 :: rest)) = false := by
  obtain ⟨c, cs, rfl⟩ : ∃ c cs, s2 = c :: cs := by
    cases s2 with
    | nil => exact absurd rfl h
    | cons c cs => exact ⟨c, cs, rfl⟩
  have hc : ¬ (c = '/') := fun he => hf (he ▸ List.mem_cons_self c cs)
  cases rest with
  | nil =>
    simp only [intercalateChar]
    rw [pyIsAbs_cons]
    simp [hc]
  | cons g gs =>
    rw [show intercalateChar '/' ((c :: cs) :: g :: gs)
          = (c :: cs) ++ '/' :: intercalateChar '/' (g :: gs) from rfl]
    rw [List.cons_append, pyIsAbs_cons]
    simp [hc]

theorem pyJoinList_eq_pyJoin_intercalate (segs : List Str) :
    ∀ (a : Str), segs ≠ [] → (∀ s ∈ segs, s ≠ []) → (∀ s ∈ segs, '/' ∉ s) →
    pyJoinList a segs = pyJoin a (intercalateChar '/' segs) := by
  induction segs with
  | nil => intro a h _ _; exact absurd rfl h
  | cons s rest ih =>
    intro a _ hne hfree
    cases rest with
    | nil => simp [pyJoinList, intercalateChar]
    | cons s2 rest' =>
      rw [show pyJoinList a (s :: s2 :: rest')
            = pyJoinList (pyJoin a s) (s2 :: rest') from rfl]
      rw [ih (pyJoin a s) (by simp)
            (fun x hx => hne x (List.mem_cons_of_mem s hx))
            (fun x hx => hfree x (List.mem_cons_of_mem s hx))]
      rw [show intercalateChar '/' (s :: s2 :: rest')
            = s ++ '/' :: intercalateChar '/' (s2 :: rest') from rfl]
      exact pyJoin_seg_step a s _
        (hne s (List.mem_cons_self s _))
        (hfree s (List.mem_cons_self s _))
        (pyIsAbs_intercalate_cons rest'
          (hne s2 (List.mem_cons_of_mem s (List.mem_cons_self s2 rest')))
          (hfree s2 (List.mem_cons_of_mem s (List.mem_cons_self s2 rest'))))

/-! ## Batch-store loop characterizations -/

theorem cancelFiles_eq (pats : List Str) :
    ∀ files : List (Str × Option JobRecord),
      cancelFiles pats files =
        (files.filter (fun e => !(cancelHit pats e.1 e.2)),
         (files.filter (fun e => cancelHit pats e.1 e.2)).length) := by
  intro files
  induction files with
  | nil => rfl
  | cons e rest ih =>
    rw [cancelFiles, ih]
    by_cases h : cancelHit pats e.1 e.2 = true
    · simp [h, List.filter_cons]
    · have h' : cancelHit pats e.1 e.2 = false := Bool.eq_false_iff.mpr h
      simp [h', List.filter_cons]

theorem cancelRoot_eq (pats : List Str) :
    ∀ root : BatchRoot,
      cancelRoot pats root =
        (root.map (fun q => if q.isDir then
           { q with files := q.files.filter (fun e => !(cancelHit pats e.1 e.2)) }
         else q),
         ((root.filter (fun q => q.isDir)).map
           (fun q => (q.files.filter (fun e => cancelHit pats e.1 e.2)).length)).sum) := by
  intro root
  induction root with
  | nil => rfl
  | cons q rest ih =>
    rw [cancelRoot, ih]
    by_cases h : q.isDir = true
    · simp [h, cancelFiles_eq, List.filter_cons]
    · have h' : q.isDir = false := Bool.eq_false_iff.mpr h
      simp [h', List.filter_cons]

theorem updateFiles_eq (pats : List Str) (nq np : Option Int) :
    ∀ files : List (Str × Option JobRecord),
      updateFiles pats nq np files =
        (files.map (fun e => (updateEntry pats nq np e).1),
         (files.filter (fun e => (updateEntry pats nq np e).2)).length) := by
  intro files
  induction files with
  | nil => rfl
  | cons e rest ih =>
    rw [updateFiles, ih]
    by_cases h : (updateEntry pats nq np e).2 = true
    · simp [h, List.filter_cons]
      omega
    · have h' : (updateEntry pats nq np e).2 = false := Bool.eq_false_iff.mpr h
      simp [h', List.filter_cons]

theorem updateRoot_eq (pats : List Str) (nq np : Option Int) :
    ∀ root : BatchRoot,
      updateRoot pats nq np root =
        (root.map (fun q => if q.isDir then
           { q with files := q.files.map (fun e => (updateEntry pats nq np e).1) }
         else q),
         ((root.filter (fun q => q.isDir)).map
           (fun q => (q.files.filter
              (fun e => (updateEntry pats nq np e).2)).length)).sum) := by
  intro root
  induction root with
  | nil => rfl
  | cons q rest ih =>
    rw [updateRoot, ih]
    by_cases h : q.isDir = true
    · simp [h, updateFiles_eq, List.filter_cons]
    · have h' : q.isDir = false := Bool.eq_false_iff.mpr h
      simp [h', List.filter_cons]

theorem pyValNeInt_true_ne {v : Option PyVal} {n : Int}
    (h : pyValNeInt v n = true) : v ≠ some (PyVal.pint n) := by
  intro he
  subst he
  simp [pyValNeInt] at h

theorem applyPriorities_none_none (job : JobRecord) :
    applyPriorities none none job = (job, false) := rfl

theorem applyPriorities_some_none (q : Int) (job : JobRecord) :
    applyPriorities (some q) none job =
      if pyValNeInt job.queuePriority q then
        ({ job with queuePriority := some (.pint q) }, true)
      else (job, false) := rfl

theorem applyPriorities_none_some (p : Int) (job : JobRecord) :
    applyPriorities none (some p) job =
      if pyValNeInt job.processPriority p then
        ({ job with processPriority := some (.pint p) }, true)
      else (job, false) := by
  unfold applyPriorities
  by_cases hp : pyValNeInt job.processPriority p = true <;> simp [hp]

theorem applyPriorities_changed_ne (nq np : Option Int) (job : JobRecord)
    (h : (applyPriorities nq np job).2 = true) :
    (applyPriorities nq np job).1 ≠ job := by
  rcases nq with _ | q
  · rcases np with _ | p
    · rw [applyPriorities_none_none] at h
      cases h
    · rw [applyPriorities_none_some] at h ⊢
      by_cases hp : pyValNeInt job.processPriority p = true
      · rw [if_pos hp]
        intro he
        have hf := congrArg JobRecord.processPriority he
        simp only [] at hf
        exact pyValNeInt_true_ne hp hf.symm
      · rw [if_neg hp] at h
        cases h
  · rcases np with _ | p
    · rw [applyPriorities_some_none] at h ⊢
      by_cases hq : pyValNeInt job.queuePriority q = true
      · rw [if_pos hq]
        intro he
        have hf := congrArg JobRecord.queuePriority he
        simp only [] at hf
        exact pyValNeInt_true_ne hq hf.symm
      · rw [if_neg hq] at h
        cases h
    · unfold applyPriorities at h ⊢
      by_cases hq : pyValNeInt job.queuePriority q = true
      · simp only [hq, if_true] at h ⊢
        by_cases hp : pyValNeInt
            ({ job with queuePriority := some (.pint q) } : JobRecord).processPriority
            p = true
        · simp only [hp, if_true]
          intro he
          have hf := congrArg JobRecord.queuePriority he
          simp only [] at hf
          exact pyValNeInt_true_ne hq hf.symm
        · have hp' : pyValNeInt _ p = false := Bool.eq_false_iff.mpr hp
          simp only [hp', Bool.false_eq_true, if_false] at h ⊢
          intro he
          have hf := congrArg JobRecord.queuePriority he
          simp only [] at hf
          exact pyValNeInt_true_ne hq hf.symm
      · have hq' : pyValNeInt job.queuePriority q = false := Bool.eq_false_iff.mpr hq
        simp only [hq', Bool.false_eq_true, if_false] at h ⊢
        by_cases hp : pyValNeInt job.processPriority p = true
        · simp only [hp, if_true] at h ⊢
          intro he
          have hf := congrArg JobRecord.processPriority he
          simp only [] at hf
          exact pyValNeInt_true_ne hp hf.symm
        · have hp' : pyValNeInt job.processPriority p = false := Bool.eq_false_iff.mpr hp
          simp only [hp', Bool.false_eq_true, if_false] at h

theorem updateEntry_eq_nonjob (pats : List Str) (nq np : Option Int)
    (e : Str × Option JobRecord) (h : endsWithS ".job".toList e.1 = false) :
    updateEntry pats nq np e = (e, false) := by
  unfold updateEntry
  rw [h]
  rfl

theorem updateEntry_eq_badrec (pats : List Str) (nq np : Option Int)
    (e : Str × Option JobRecord) (h : endsWithS ".job".toList e.1 = true)
    (h2 : e.2 = none) : updateEntry pats nq np e = (e, false) := by
  unfold updateEntry
  rw [h, h2]
  rfl

theorem updateEntry_eq_nomatch (pats : List Str) (nq np : Option Int)
    (e : Str × Option JobRecord) (job : JobRecord)
    (h : endsWithS ".job".toList e.1 = true) (h2 : e.2 = some job)
    (h3 : pats.any (fun pat => fnmatchCI (job.processName.getD (jobBase e.1)) pat)
          = false) :
    updateEntry pats nq np e = (e, false) := by
  unfold updateEntry
  rw [h, h2]
  simp only [h3]
  rfl

theorem updateEntry_eq_match (pats : List Str) (nq np : Option Int)
    (e : Str × Option JobRecord) (job : JobRecord)
    (h : endsWithS ".job".toList e.1 = true) (h2 : e.2 = some job)
    (h3 : pats.any (fun pat => fnmatchCI (job.processName.getD (jobBase e.1)) pat)
          = true) :
    updateEntry pats nq np e =
      (if (applyPriorities nq np job).2 then
         ((e.1, some (applyPriorities nq np job).1), true)
       else (e, false)) := by
  unfold updateEntry
  rw [h, h2]
  simp only [h3]
  rfl

theorem updateEntry_not_counted_unchanged (pats : List Str) (nq np : Option Int)
    (e : Str × Option JobRecord) (h : (updateEntry pats nq np e).2 = false) :
    (updateEntry pats nq np e).1 = e := by
  by_cases h1 : endsWithS ".job".toList e.1 = true
  · cases hrec : e.2 with
    | none => rw [updateEntry_eq_badrec pats nq np e h1 hrec]
    | some job =>
      by_cases h2 : pats.any
          (fun pat => fnmatchCI (job.processName.getD (jobBase e.1)) pat) = true
      · rw [updateEntry_eq_match pats nq np e job h1 hrec h2] at h ⊢
        by_cases h3 : (applyPriorities nq np job).2 = true
        · rw [if_pos h3] at h
          cases h
        · rw [if_neg h3]
      · rw [updateEntry_eq_nomatch pats nq np e job h1 hrec
            (Bool.eq_false_iff.mpr h2)]
  · rw [updateEntry_eq_nonjob pats nq np e (Bool.eq_false_iff.mpr h1)]

theorem updateEntry_counted_changed (pats : List Str) (nq np : Option Int)
    (e : Str × Option JobRecord) (h : (updateEntry pats nq np e).2 = true) :
    (updateEntry pats nq np e).1 ≠ e := by
  by_cases h1 : endsWithS ".job".toList e.1 = true
  · cases hrec : e.2 with
    | none =>
      rw [updateEntry_eq_badrec pats nq np e h1 hrec] at h
      cases h
    | some job =>
      by_cases h2 : pats.any
          (fun pat => fnmatchCI (job.processName.getD (jobBase e.1)) pat) = true
      · rw [updateEntry_eq_match pats nq np e job h1 hrec h2] at h ⊢
        by_cases h3 : (applyPriorities nq np job).2 = true
        · rw [if_pos h3]
          intro he
          have hsnd := congrArg Prod.snd he
          simp only [] at hsnd
          rw [hrec] at hsnd
          have : (applyPriorities nq np job).1 = job := by
            injection hsnd with h4
          exact applyPriorities_changed_ne nq np job h3 this
        · rw [if_neg h3] at h
          cases h
      · rw [updateEntry_eq_nomatch pats nq np e job h1 hrec
            (Bool.eq_false_iff.mpr h2)] at h
        cases h
  · rw [updateEntry_eq_nonjob pats nq np e (Bool.eq_false_iff.mpr h1)] at h
    cases h

theorem startsWithS_prepend (p s : Str) : startsWithS p (p ++ s) = true := by
  induction p with
  | nil => rfl
  | cons c cs ih => simp [startsWithS, ih]

theorem isErrS_errS (m : Str) : isErrS (errS m) = true :=
  startsWithS_prepend "[ERR] ".toList m

/-! ## Theorems -/

/-- C1: the claim (and the source's own docstring) says the extension
cut drops everything from the **last** `.` onward, so that the command
line `backup.tar.gz` should derive the process name `backuptar`; the
code (`split('.')[0]`) cuts at the **first** `.` and derives `backup`.
The claim's worked example `'Sales>Report.txt' -queue nightly` →
`Report` does hold (its token has a single dot). -/
theorem derive_process_name_cuts_at_first_dot :
    derive_process_name "'Sales>Report.txt' -queue nightly".toList
      = some "Report".toList ∧
    derive_process_name "backup.tar.gz".toList = some "backup".toList ∧
    derive_process_name_spec "backup.tar.gz".toList = some "backuptar".toList ∧
    derive_process_name "backup.tar.gz".toList
      ≠ derive_process_name_spec "backup.tar.gz".toList := by
  refine ⟨by decide, by decide, by decide, by decide⟩

theorem genJobLoop_first_free (existsF : Str → Bool) (base : Str) :
    ∀ (fuel i k : Nat), i ≤ k → k ≤ i + fuel →
      existsF (jobFileName base k) = false →
      (∀ j, i ≤ j → j < k → existsF (jobFileName base j) = true) →
      genJobLoop existsF base fuel i = jobFileName base k := by
  intro fuel
  induction fuel with
  | zero =>
    intro i k hik hki hfree _
    have : i = k := by omega
    subst this
    simp [genJobLoop]
  | succ n ih =>
    intro i k hik hki hfree hocc
    rw [genJobLoop]
    by_cases hi : existsF (jobFileName base i) = true
    · have hik' : i < k := by
        rcases Nat.lt_or_ge i k with h | h
        · exact h
        · have : i = k := by omega
          subst this
          rw [hi] at hfree
          cases hfree
      rw [hi]
      simp only []
      exact ih (i + 1) k (by omega) (by omega) hfree
        (fun j hj1 hj2 => hocc j (by omega) hj2)
    · have hik' : i = k := by
        rcases Nat.lt_or_ge i k with h | h
        · have := hocc i (le_refl i) h
          exact absurd this hi
        · omega
      subst hik'
      simp [eq_false_of_ne_true hi]

/-- C6: the job file for a submission is stored at
`<queue dir>/<name>.job` when that name is free, and otherwise at the
first free `<name>_k.job` in increasing order of `k`; in particular a
second submission with the same derived name lands in `<name>_1.job`
(the witness instantiates exactly that two-submission scenario). -/
theorem generate_unique_job_path_first_free
    (pathExists : Str → Bool) (batchRoot queueName processName : Str)
    (fuel k : Nat) (hk : k ≤ fuel)
    (hfree : pathExists (pyJoin (pyJoin batchRoot queueName)
               (jobFileName processName k)) = false)
    (hocc : ∀ j, j < k → pathExists (pyJoin (pyJoin batchRoot queueName)
               (jobFileName processName j)) = true) :
    generate_unique_job_path pathExists batchRoot fuel queueName processName =
      pyJoin (pyJoin batchRoot queueName) (jobFileName processName k) := by
  unfold generate_unique_job_path
  simp only []
  rw [genJobLoop_first_free
        (fun fn => pathExists (pyJoin (pyJoin batchRoot queueName) fn))
        processName fuel 0 k (Nat.zero_le k) (by omega) hfree
        (fun j _ hj => hocc j hj)]

/-- C2: a directory-change whose resolved target falls outside the
sandbox root under the code's containment criterion — the prefix check
on normalized absolute paths — yields an error and leaves the working
directory unchanged; conversely, whenever the working directory does
change, the target had passed both the `os.path.isdir` check and the
containment prefix check; and when an existing directory fails the
prefix check the reported error is specifically the containment
message. -/
theorem change_current_dir_containment (isDirF : Str → Bool)
    (cwd stateDir curDir target : Str) :
    (startsWithS (pyAbspath cwd stateDir)
        (pyAbspath cwd (resolve_state_path stateDir curDir target)) = false →
      isErrS (h_change_current_dir isDirF cwd stateDir curDir [target]).1 = true ∧
      (h_change_current_dir isDirF cwd stateDir curDir [target]).2 = curDir) ∧
    ((h_change_current_dir isDirF cwd stateDir curDir [target]).2 ≠ curDir →
      isDirF (resolve_state_path stateDir curDir target) = true ∧
      startsWithS (pyAbspath cwd stateDir)
        (pyAbspath cwd (resolve_state_path stateDir curDir target)) = true) ∧
    (isDirF (resolve_state_path stateDir curDir target) = true →
      startsWithS (pyAbspath cwd stateDir)
        (pyAbspath cwd (resolve_state_path stateDir curDir target)) = false →
      (h_change_current_dir isDirF cwd stateDir curDir [target]).1 =
        errS ("change_current_dir: target ".toList ++
              resolve_state_path stateDir curDir target ++
              " is outside STATE_DIR".toList)) := by
  by_cases hdir : isDirF (resolve_state_path stateDir curDir target) = true
  · by_cases hin : startsWithS (pyAbspath cwd stateDir)
        (pyAbspath cwd (resolve_state_path stateDir curDir target)) = true
    · refine ⟨fun hout => ?_, fun _ => ⟨hdir, hin⟩, fun _ hout => ?_⟩
      · rw [hin] at hout
        cases hout
      · rw [hin] at hout
        cases hout
    · have hin' : startsWithS (pyAbspath cwd stateDir)
          (pyAbspath cwd (resolve_state_path stateDir curDir target)) = false :=
        Bool.eq_false_iff.mpr hin
      have hres : h_change_current_dir isDirF cwd stateDir curDir [target] =
          (errS ("change_current_dir: target ".toList ++
                 resolve_state_path stateDir curDir target ++
                 " is outside STATE_DIR".toList), curDir) := by
        unfold h_change_current_dir
        simp only []
        rw [hdir, hin']
        rfl
      rw [hres]
      exact ⟨fun _ => ⟨isErrS_errS _, rfl⟩,
             fun hch => absurd rfl hch,
             fun _ _ => rfl⟩
  · have hdir' : isDirF (resolve_state_path stateDir curDir target) = false :=
      Bool.eq_false_iff.mpr hdir
    have hres : h_change_current_dir isDirF cwd stateDir curDir [target] =
        (errS ("change_current_dir: target directory does not exist: ".toList ++
               resolve_state_path stateDir curDir target), curDir) := by
      unfold h_change_current_dir
      simp only []
      rw [hdir']
      rfl
    rw [hres]
    exact ⟨fun _ => ⟨isErrS_errS _, rfl⟩,
           fun hch => absurd rfl hch,
           fun hd _ => absurd hd hdir⟩

/-- Witness for C2: with the sandbox root `/r/vos_state/filesystem`,
the legacy-absolute escape `>..` resolves to the parent of the root,
fails the containment check, and the working directory stays at the
root. -/
theorem change_current_dir_containment_witness :
    isErrS (h_change_current_dir (fun _ => true) "/w".toList
        "/r/vos_state/filesystem".toList [] [">..".toList]).1 = true ∧
    (h_change_current_dir (fun _ => true) "/w".toList
        "/r/vos_state/filesystem".toList [] [">..".toList]).2 = [] :=
  (change_current_dir_containment (fun _ => true) "/w".toList
    "/r/vos_state/filesystem".toList [] ">..".toList).1 (by decide)

/-- C3: resolving an input line that is (up to letter case) exactly a
registered canonical name yields that command with an empty argument
list — the full-line exact match fires before the head/argument split,
so multi-word names resolve whole.  Hypotheses: the name is registered
and canonical under case-insensitive lookup, the line is its own trim,
and no alias pattern rewrites the line. -/
theorem resolve_registered_name_exact {H : Type} (aliases : List (Str × Str))
    (cmds : List (Str × H)) (fuzzy : Str → List Str → List Str)
    (n line : Str) (h : H)
    (hreg : ciLookup cmds (lowerS n) = some (n, h))
    (hcase : lowerS line = lowerS n)
    (htrim : pyStrip line = line) (hne : line ≠ [])
    (halias : ∀ a ∈ aliases.map Prod.fst, aliasHits a (lowerS line) = false) :
    _resolve aliases cmds fuzzy line = .cmd n h [] := by
  unfold _resolve
  rw [htrim]
  simp only [if_neg hne]
  have hfind : (pySorted (fun a b => b.length ≤ a.length)
      (aliases.map Prod.fst)).find?
      (fun a => aliasHits a (lowerS line)) = none := by
    apply List.find?_eq_none.mpr
    intro a ha
    have : a ∈ aliases.map Prod.fst := (mem_pySorted _ a _).mp ha
    simp [halias a this]
  rw [hfind]
  simp only [hcase, hreg]

/-- Witness for C3: with the multi-word command `show commands status`
registered, the recased line `SHOW Commands STATUS` resolves to it with
no arguments. -/
theorem resolve_registered_name_exact_witness :
    _resolve [] [("show commands status".toList, 0)] (fun _ _ => [])
        "SHOW Commands STATUS".toList
      = .cmd "show commands status".toList 0 [] :=
  resolve_registered_name_exact [] [("show commands status".toList, 0)]
    (fun _ _ => []) "show commands status".toList
    "SHOW Commands STATUS".toList 0
    (by decide) (by decide) (by decide) (by decide)
    (fun a ha => by simp at ha)

/-- The two-command registry of the spec's ambiguity example, in an
insertion order that differs from sorted order. -/
def showCmds : List (Str × Nat) :=
  [("show system".toList, 0), ("show status".toList, 1)]

/-- Counterexample for C4: resolving `show s` over the registry
`{show system, show status}` (registered in that order) produces the
ambiguity diagnostic listing the candidates in registry order
`[show system, show status]`, which is **not** sorted — the diagnostic
differs from the one a sorted candidate list would produce. -/
theorem resolve_ambiguous_not_sorted_counterexample :
    _resolve [] showCmds (fun _ _ => []) "show s".toList
      = .diag (ambiguousMsg (resolveCandidates showCmds "show".toList)) ∧
    resolveCandidates showCmds "show".toList
      = ["show system".toList, "show status".toList] ∧
    sortStrs (resolveCandidates showCmds "show".toList)
      = ["show status".toList, "show system".toList] ∧
    ambiguousMsg (resolveCandidates showCmds "show".toList)
      ≠ ambiguousMsg (sortStrs (resolveCandidates showCmds "show".toList)) := by
  refine ⟨by decide, by decide, by decide, by decide⟩

/-- C4 (amended): when resolution reaches the prefix/glob stage and two
or more candidates match, the resolver returns the ambiguity diagnostic
— not a handler — listing the candidates **in registry order** (a
sublist of the registered names), capped to the first 20, with the
`... (more)` marker exactly when more than 20 candidates exist. -/
theorem resolve_ambiguous_diag {H : Type} (aliases : List (Str × Str))
    (cmds : List (Str × H)) (fuzzy : Str → List Str → List Str) (line : Str)
    (htrim : pyStrip line = line) (hne : line ≠ [])
    (halias : ∀ a ∈ aliases.map Prod.fst, aliasHits a (lowerS line) = false)
    (hfull : ciLookup cmds (lowerS line) = none)
    (hheadne : (_split_cmd_args line cmds).1 ≠ [])
    (hhead : ciLookup cmds (lowerS (_split_cmd_args line cmds).1) = none)
    (hmany : 2 ≤ (resolveCandidates cmds
        (lowerS (_split_cmd_args line cmds).1)).length) :
    _resolve aliases cmds fuzzy line
      = .diag ("Ambiguous command. Did you mean:\n  - ".toList ++
          intercalateS "\n  - ".toList
            ((resolveCandidates cmds
                (lowerS (_split_cmd_args line cmds).1)).take 20) ++
          (if (resolveCandidates cmds
                (lowerS (_split_cmd_args line cmds).1)).length > 20 then
             "\n  ... (more)".toList else [])) ∧
    List.Sublist (resolveCandidates cmds (lowerS (_split_cmd_args line cmds).1))
      (cmds.map Prod.fst) ∧
    ((resolveCandidates cmds
        (lowerS (_split_cmd_args line cmds).1)).take 20).length ≤ 20 := by
  refine ⟨?_, ?_, ?_⟩
  · unfold _resolve
    rw [htrim]
    simp only [if_neg hne]
    have hfind : (pySorted (fun a b => b.length ≤ a.length)
        (aliases.map Prod.fst)).find?
        (fun a => aliasHits a (lowerS line)) = none := by
      apply List.find?_eq_none.mpr
      intro a ha
      have : a ∈ aliases.map Prod.fst := (mem_pySorted _ a _).mp ha
      simp [halias a this]
    rw [hfind]
    simp only [hfull, if_neg hheadne, hhead]
    cases hcand : resolveCandidates cmds (lowerS (_split_cmd_args line cmds).1) with
    | nil => rw [hcand] at hmany; simp at hmany
    | cons x rest =>
      cases rest with
      | nil => rw [hcand] at hmany; simp at hmany
      | cons y rest' =>
        simp only [ambiguousMsg]
  · exact List.Sublist.map Prod.fst (List.filter_sublist cmds)
  · exact le_trans (List.length_take_le 20 _) (le_refl 20)

/-- Witness for C4 (amended): the `show s` instance over the
two-command registry. -/
theorem resolve_ambiguous_diag_witness :
    _resolve [] showCmds (fun _ _ => []) "show s".toList
      = .diag ("Ambiguous command. Did you mean:\n  - ".toList ++
          intercalateS "\n  - ".toList
            ((resolveCandidates showCmds
                (lowerS (_split_cmd_args "show s".toList showCmds).1)).take 20) ++
          (if (resolveCandidates showCmds
                (lowerS (_split_cmd_args "show s".toList showCmds).1)).length > 20
           then "\n  ... (more)".toList else [])) :=
  (resolve_ambiguous_diag [] showCmds (fun _ _ => []) "show s".toList
    (by decide) (by decide) (fun a ha => by simp at ha)
    (by decide) (by decide) (by decide) (by decide)).1

/-- C5: re-resolving the legacy rendering of any well-formed
WorkingDirectory value `d` (leading `>` followed by `d`'s segments
joined by `>`) yields exactly the sandbox root joined with `d`:
`resolve_state_path stateDir d (formatVosWd d) = sandboxJoin stateDir d`. -/
theorem resolve_format_round_trip (stateDir d : Str) (hw : wdOk d = true) :
    resolve_state_path stateDir d (formatVosWd d) = sandboxJoin stateDir d := by
  by_cases hd : d = []
  · subst hd
    rfl
  · have hw' := hw
    unfold wdOk at hw'
    rw [Bool.and_eq_true, Bool.or_eq_true] at hw'
    obtain ⟨hall, hseg0⟩ := hw'
    have hsegne : ∀ s ∈ splitOnChar '/' d, s ≠ [] := by
      rcases hseg0 with h | h
      · exact absurd (by simpa using h) hd
      · intro s hs
        have := List.all_eq_true.mp h s hs
        simpa using this
    have hchars : ∀ c ∈ d, c ≠ '>' ∧ isPySpace c = false := by
      intro c hc
      have := List.all_eq_true.mp hall c hc
      rw [Bool.and_eq_true] at this
      exact ⟨by simpa using this.1, by simpa using this.2⟩
    set segs := splitOnChar '/' d with hsegs
    have hsegsne : segs ≠ [] := splitOnChar_ne_nil '/' d
    have hsegslash : ∀ s ∈ segs, '/' ∉ s := fun s hs => not_mem_of_mem_splitOnChar hs
    have hseggt : ∀ s ∈ segs, '>' ∉ s := by
      intro s hs hgt
      exact (hchars '>' (mem_of_mem_splitOnChar hs hgt)).1 rfl
    have hfmt : formatVosWd d = '>' :: intercalateChar '>' segs := by
      rw [formatVosWd, if_neg hd]
    have hstrip : pyStrip ('>' :: intercalateChar '>' segs)
        = '>' :: intercalateChar '>' segs := by
      apply stripS_eq_self_of_all
      intro c hc
      rcases List.mem_cons.mp hc with h | h
      · subst h
        decide
      · rcases mem_intercalateChar h with h' | ⟨s, hs, hcs⟩
        · subst h'
          decide
        · simp [(hchars c (mem_of_mem_splitOnChar hs hcs)).2]
    have habs : pyIsAbs ('>' :: intercalateChar '>' segs) = false := by
      rw [pyIsAbs_cons]
      decide
    have hsplit : splitOnChar '>' ('>' :: intercalateChar '>' segs)
        = [] :: segs := by
      rw [splitOnChar]
      rw [if_pos rfl]
      rw [splitOnChar_intercalateChar segs hsegsne hseggt]
    have hcontains : ('>' :: intercalateChar '>' segs).contains '>' = true := by
      simp [List.contains_cons]
    have hstarts : startsWithS ">".toList ('>' :: intercalateChar '>' segs) = true := by
      simp [startsWithS]
    have hfilter : (([] : Str) :: segs).filter (fun s => s ≠ []) = segs := by
      rw [List.filter_cons]
      simp only [decide_not, ne_eq, not_true_eq_false, decide_False, decide_True,
        Bool.not_false, Bool.not_true, Bool.false_eq_true, if_false]
      exact List.filter_eq_self.mpr (fun s hs => by simpa using hsegne s hs)
    rw [hfmt]
    unfold resolve_state_path
    rw [if_neg (by simp : ¬ ('>' :: intercalateChar '>' segs = []))]
    simp only [hstrip, habs, hsplit, hcontains, hstarts, Bool.false_eq_true,
      if_false, if_true]
    rw [hfilter]
    rw [pyJoinList_eq_pyJoin_intercalate segs stateDir hsegsne hsegne hsegslash]
    rw [intercalateChar_splitOnChar '/' d]
    rw [sandboxJoin, if_neg hd]

/-- Witness for C5: the working directory `Sales/Jones` formats to
`>Sales>Jones` and resolves back to `<root>/Sales/Jones`. -/
theorem resolve_format_round_trip_witness :
    resolve_state_path "/r/vos_state/filesystem".toList "Sales/Jones".toList
        (formatVosWd "Sales/Jones".toList)
      = sandboxJoin "/r/vos_state/filesystem".toList "Sales/Jones".toList :=
  resolve_format_round_trip "/r/vos_state/filesystem".toList
    "Sales/Jones".toList (by decide)

/-- C7: `update_batch_requests` fails with a usage error — leaving the
store untouched — whenever no priority value is supplied (empty
arguments, a parse error, or a parse yielding neither priority); when
patterns and at least one priority are given, every entry is mapped
through the per-job update, a stored record is rewritten only when a
requested field actually differs (matched-but-unchanged jobs and files
that are not parseable `.job` records stay identical), and the reported
count is exactly the number of entries actually modified. -/
theorem update_batch_requests_spec :
    (∀ (args : List Str) (root : BatchRoot),
      (args = [] ∨ (∃ m, parseUpdateArgs [] none none args = .error m) ∨
       (∃ pats, parseUpdateArgs [] none none args = .ok (pats, none, none))) →
      isErrS (h_update_batch_requests args root).1 = true ∧
      (h_update_batch_requests args root).2 = root) ∧
    (∀ (args : List Str) (root : BatchRoot) (pats : List Str) (nq np : Option Int),
      parseUpdateArgs [] none none args = .ok (pats, nq, np) →
      pats ≠ [] → ¬ (nq = none ∧ np = none) →
      (h_update_batch_requests args root).1 =
        okS ("updated ".toList ++
             (toString (((root.filter (fun q => q.isDir)).map
                 (fun q => (q.files.filter
                    (fun e => (updateEntry pats nq np e).2)).length)).sum)).toList ++
             " batch request(s)".toList) ∧
      (h_update_batch_requests args root).2 =
        root.map (fun q => if q.isDir then
          { q with files := q.files.map (fun e => (updateEntry pats nq np e).1) }
        else q) ∧
      (∀ e : Str × Option JobRecord, (updateEntry pats nq np e).2 = false →
        (updateEntry pats nq np e).1 = e) ∧
      (∀ e : Str × Option JobRecord, (updateEntry pats nq np e).2 = true →
        (updateEntry pats nq np e).1 ≠ e)) := by
  constructor
  · intro args root h
    by_cases ha : args = []
    · subst ha
      exact ⟨isErrS_errS _, rfl⟩
    · rcases h with h | ⟨m, hm⟩ | ⟨pats, hp⟩
      · exact absurd h ha
      · unfold h_update_batch_requests
        rw [if_neg ha, hm]
        exact ⟨isErrS_errS _, rfl⟩
      · unfold h_update_batch_requests
        rw [if_neg ha, hp]
        have hcond : (pats = [] || ((none : Option Int) = none &&
            (none : Option Int) = none)) = true := by simp
        dsimp only
        rw [if_pos hcond]
        exact ⟨isErrS_errS _, rfl⟩
  · intro args root pats nq np hp hpats hpri
    have ha : args ≠ [] := by
      intro he
      subst he
      simp [parseUpdateArgs] at hp
      exact hpats hp.1
    have hcond : (pats = [] || (nq = none && np = none)) = false := by
      simp only [Bool.or_eq_false_iff, Bool.and_eq_false_iff]
      constructor
      · simpa using hpats
      · by_cases h1 : nq = none
        · right
          simp only [decide_eq_false_iff_not]
          intro h2
          exact hpri ⟨h1, h2⟩
        · left
          simpa using h1
    unfold h_update_batch_requests
    rw [if_neg ha, hp]
    dsimp only
    rw [hcond]
    simp only [Bool.false_eq_true, if_false]
    rw [updateRoot_eq]
    exact ⟨rfl, rfl,
      fun e he => updateEntry_not_counted_unchanged pats nq np e he,
      fun e he => updateEntry_counted_changed pats nq np e he⟩

/-- Witness for C7: a store with a matching job at queue priority 4, a
matching job already at the requested priority, and an unreadable
record — requesting queue priority 7 for `rep*`-and-`keep` patterns
reports exactly the one actually-modified job. -/
theorem update_batch_requests_spec_witness :
    (h_update_batch_requests
        ["rep*".toList, "keep".toList, "-queue_priority".toList, "7".toList]
        [⟨"normal".toList, true,
          [("report.job".toList,
            some ⟨some "report".toList, some (.pint 4), none⟩),
           ("keep.job".toList,
            some ⟨some "keep".toList, some (.pint 7), none⟩),
           ("bad.job".toList, none)]⟩]).1
      = okS "updated 1 batch request(s)".toList ∧
    isErrS (h_update_batch_requests ["rep*".toList] []).1 = true := by
  constructor
  · have := (update_batch_requests_spec.2
      ["rep*".toList, "keep".toList, "-queue_priority".toList, "7".toList]
      [⟨"normal".toList, true,
        [("report.job".toList,
          some ⟨some "report".toList, some (.pint 4), none⟩),
         ("keep.job".toList,
          some ⟨some "keep".toList, some (.pint 7), none⟩),
         ("bad.job".toList, none)]⟩]
      ["rep*".toList, "keep".toList] (some 7) none
      (by rfl) (by decide) (by decide)).1
    rw [this]
    decide
  · exact (update_batch_requests_spec.1 ["rep*".toList] []
      (Or.inr (Or.inr ⟨["rep*".toList], by rfl⟩))).1

theorem statusRowsOfQueue_eq (queue : Str) :
    ∀ files : List (Str × Option JobRecord),
      statusRowsOfQueue queue files =
        (files.filter (fun e => endsWithS ".job".toList e.1)).map
          (fun e => statusRowOf queue e.1 e.2) := by
  intro files
  induction files with
  | nil => rfl
  | cons e rest ih =>
    rw [statusRowsOfQueue]
    by_cases h : endsWithS ".job".toList e.1 = true
    · rw [if_pos h, ih, List.filter_cons, if_pos (by simpa using h)]
      rfl
    · have h' : endsWithS ".job".toList e.1 = false := Bool.eq_false_iff.mpr h
      rw [if_neg (by simpa using h'), ih, List.filter_cons,
          if_neg (by simpa using h')]

theorem statusRowsLoop_eq (qf : Option Str) :
    ∀ l : List QueueDir,
      statusRowsLoop qf l =
        (l.foldr
          (fun q acc =>
            if queueFiltered qf q.name || !q.isDir then acc
            else ((pySorted (fun a b => strLe a.1 b.1) q.files).filter
                    (fun e => endsWithS ".job".toList e.1)).map
                   (fun e => (q.name, e.1, e.2)) ++ acc)
          []).map (fun e => statusRowOf e.1 e.2.1 e.2.2) := by
  intro l
  induction l with
  | nil => rfl
  | cons q rest ih =>
    rw [statusRowsLoop, List.foldr_cons]
    by_cases h1 : queueFiltered qf q.name = true
    · rw [if_pos h1]
      rw [show (queueFiltered qf q.name || !q.isDir) = true by simp [h1]]
      simpa using ih
    · have h1' : queueFiltered qf q.name = false := Bool.eq_false_iff.mpr h1
      rw [if_neg (by simp [h1'])]
      by_cases h2 : q.isDir = true
      · rw [if_neg (by simp [h2])]
        rw [show (queueFiltered qf q.name || !q.isDir) = false by simp [h1', h2]]
        simp only [Bool.false_eq_true, if_false, List.map_append]
        rw [statusRowsOfQueue_eq, ih, List.map_map]
        rfl
      · have h2' : q.isDir = false := Bool.eq_false_iff.mpr h2
        rw [if_pos (by simp [h2'])]
        rw [show (queueFiltered qf q.name || !q.isDir) = true by simp [h2']]
        simpa using ih

theorem listRowsOfQueue_eq (queue : Str) :
    ∀ files : List (Str × Option JobRecord),
      listRowsOfQueue queue files =
        (files.filter (fun e => endsWithS ".job".toList e.1)).map
          (fun e => listRowOf queue e.1 e.2) := by
  intro files
  induction files with
  | nil => rfl
  | cons e rest ih =>
    rw [listRowsOfQueue]
    by_cases h : endsWithS ".job".toList e.1 = true
    · rw [if_pos h, ih, List.filter_cons, if_pos (by simpa using h)]
      rfl
    · have h' : endsWithS ".job".toList e.1 = false := Bool.eq_false_iff.mpr h
      rw [if_neg (by simpa using h'), ih, List.filter_cons,
          if_neg (by simpa using h')]

theorem listRowsLoop_eq (qf : Option Str) :
    ∀ l : List QueueDir,
      listRowsLoop qf l =
        (l.foldr
          (fun q acc =>
            if queueFiltered qf q.name || !q.isDir then acc
            else ((pySorted (fun a b => strLe a.1 b.1) q.files).filter
                    (fun e => endsWithS ".job".toList e.1)).map
                   (fun e => (q.name, e.1, e.2)) ++ acc)
          []).map (fun e => listRowOf e.1 e.2.1 e.2.2) := by
  intro l
  induction l with
  | nil => rfl
  | cons q rest ih =>
    rw [listRowsLoop, List.foldr_cons]
    by_cases h1 : queueFiltered qf q.name = true
    · rw [if_pos h1]
      rw [show (queueFiltered qf q.name || !q.isDir) = true by simp [h1]]
      simpa using ih
    · have h1' : queueFiltered qf q.name = false := Bool.eq_false_iff.mpr h1
      rw [if_neg (by simp [h1'])]
      by_cases h2 : q.isDir = true
      · rw [if_neg (by simp [h2])]
        rw [show (queueFiltered qf q.name || !q.isDir) = false by simp [h1', h2]]
        simp only [Bool.false_eq_true, if_false, List.map_append]
        rw [listRowsOfQueue_eq, ih, List.map_map]
        rfl
      · have h2' : q.isDir = false := Bool.eq_false_iff.mpr h2
        rw [if_pos (by simp [h2'])]
        rw [show (queueFiltered qf q.name || !q.isDir) = true by simp [h2']]
        simpa using ih

/-- The queue of the C8 counterexample: an unparsable `bad.job` next to
a readable `good.job`. -/
def malformedRoot : BatchRoot :=
  [⟨"normal".toList, true,
    [("bad.job".toList, none),
     ("good.job".toList, some ⟨some "good".toList, some (.pint 4), none⟩)]⟩]

/-- Counterexample for C8: in the request listing
(`h_list_batch_requests`) the unparsable `bad.job` is reported as the
row `(normal, bad, ⟨empty⟩)` — the file base name with an empty
priority cell — and **no** row of that listing carries an
`unreadable` status sentinel anywhere, so the claim's "row carrying an
'unreadable' status sentinel", quantified over every batch listing, is
false for this listing. -/
theorem list_batch_requests_no_sentinel_counterexample :
    listBatchRows none malformedRoot
      = [("normal".toList, "bad".toList, ([] : Str)),
         ("normal".toList, "good".toList, "4".toList)] ∧
    ∀ r ∈ listBatchRows none malformedRoot,
      r.1 ≠ "unreadable".toList ∧ r.2.1 ≠ "unreadable".toList ∧
      r.2.2 ≠ "unreadable".toList := by
  refine ⟨by decide, by decide⟩

/-- C8 (amended): both batch listings turn **every** enumerated `.job`
directory entry into exactly one row — a record that fails to parse
never aborts either enumeration.  In the status listing
(`h_display_batch_status`) the unparsable record's row carries the
file base name and the `unreadable` status sentinel; in the request
listing (`h_list_batch_requests`) it carries the file base name with
an empty priority cell and no sentinel. -/
theorem batch_listings_malformed_rows :
    (∀ (qf : Option Str) (root : BatchRoot),
      displayBatchRows qf root
        = (enumJobEntries qf root).map (fun e => statusRowOf e.1 e.2.1 e.2.2)) ∧
    (∀ (qf : Option Str) (root : BatchRoot) (q f : Str),
      (q, f, (none : Option JobRecord)) ∈ enumJobEntries qf root →
      (q, jobBase f, ([] : Str), ([] : Str), "unreadable".toList)
        ∈ displayBatchRows qf root) ∧
    (∀ (qf : Option Str) (root : BatchRoot),
      listBatchRows qf root
        = (enumJobEntries qf root).map (fun e => listRowOf e.1 e.2.1 e.2.2)) ∧
    (∀ (qf : Option Str) (root : BatchRoot) (q f : Str),
      (q, f, (none : Option JobRecord)) ∈ enumJobEntries qf root →
      (q, jobBase f, ([] : Str)) ∈ listBatchRows qf root) := by
  have hdisp : ∀ (qf : Option Str) (root : BatchRoot),
      displayBatchRows qf root
        = (enumJobEntries qf root).map (fun e => statusRowOf e.1 e.2.1 e.2.2) := by
    intro qf root
    unfold displayBatchRows enumJobEntries
    exact statusRowsLoop_eq qf (pySorted (fun a b => strLe a.name b.name) root)
  have hlist : ∀ (qf : Option Str) (root : BatchRoot),
      listBatchRows qf root
        = (enumJobEntries qf root).map (fun e => listRowOf e.1 e.2.1 e.2.2) := by
    intro qf root
    unfold listBatchRows enumJobEntries
    exact listRowsLoop_eq qf (pySorted (fun a b => strLe a.name b.name) root)
  refine ⟨hdisp, fun qf root q f hmem => ?_, hlist, fun qf root q f hmem => ?_⟩
  · rw [hdisp]
    exact List.mem_map_of_mem (fun e => statusRowOf e.1 e.2.1 e.2.2) hmem
  · rw [hlist]
    exact List.mem_map_of_mem (fun e => listRowOf e.1 e.2.1 e.2.2) hmem

/-- Witness for C8 (amended): over `malformedRoot`, the status listing
shows `bad.job` with the `unreadable` sentinel while the request
listing shows it with an empty priority cell; both listings also keep
the readable `good.job` row (nothing aborted). -/
theorem batch_listings_malformed_rows_witness :
    ("normal".toList, jobBase "bad.job".toList, ([] : Str), ([] : Str),
       "unreadable".toList) ∈ displayBatchRows none malformedRoot ∧
    ("normal".toList, jobBase "bad.job".toList, ([] : Str))
      ∈ listBatchRows none malformedRoot :=
  ⟨batch_listings_malformed_rows.2.1 none malformedRoot
     "normal".toList "bad.job".toList (by decide),
   batch_listings_malformed_rows.2.2.2 none malformedRoot
     "normal".toList "bad.job".toList (by decide)⟩

/-- C10: `cancel_batch_requests` rewrites each queue directory to the
entries that survive `cancelHit` and reports the number removed; and
for a `.job` file whose record fails to parse, `cancelHit` matches the
patterns (case-insensitive glob) against the file's base name — so an
unreadable job is still cancelled and counted when its file name
matches. -/
theorem cancel_batch_requests_unreadable :
    (∀ (args : List Str) (root : BatchRoot), args ≠ [] →
      (h_cancel_batch_requests args root).1 =
        okS ("cancelled ".toList ++
             (toString (((root.filter (fun q => q.isDir)).map
                (fun q => (q.files.filter
                   (fun e => cancelHit args e.1 e.2)).length)).sum)).toList ++
             " batch request(s)".toList) ∧
      (h_cancel_batch_requests args root).2 =
        root.map (fun q => if q.isDir then
          { q with files := q.files.filter (fun e => !(cancelHit args e.1 e.2)) }
        else q)) ∧
    (∀ (pats : List Str) (f : Str),
      cancelHit pats f none =
        (endsWithS ".job".toList f &&
         pats.any (fun pat => fnmatchCI (jobBase f) pat))) := by
  constructor
  · intro args root ha
    unfold h_cancel_batch_requests
    rw [if_neg ha, cancelRoot_eq]
    exact ⟨rfl, rfl⟩
  · intro pats f
    rfl

/-- Witness for C10: an unreadable `bad.job` is cancelled (and counted)
when the pattern `BAD` glob-matches its base name case-insensitively,
while an unreadable non-matching record survives. -/
theorem cancel_batch_requests_unreadable_witness :
    (h_cancel_batch_requests ["BAD".toList]
        [⟨"normal".toList, true,
          [("bad.job".toList, none), ("other.job".toList, none)]⟩]).1
      = okS "cancelled 1 batch request(s)".toList ∧
    (h_cancel_batch_requests ["BAD".toList]
        [⟨"normal".toList, true,
          [("bad.job".toList, none), ("other.job".toList, none)]⟩]).2
      = [⟨"normal".toList, true, [("other.job".toList, none)]⟩] := by
  have := (cancel_batch_requests_unreadable.1 ["BAD".toList]
    [⟨"normal".toList, true,
      [("bad.job".toList, none), ("other.job".toList, none)]⟩]
    (by decide))
  refine ⟨?_, ?_⟩
  · rw [this.1]
    decide
  · rw [this.2]
    decide

/-- A concrete world for instantiating the registry safety theorem:
empty state, all filesystem oracles failing. -/
def trivialWorld : World where
  cwd := "/w".toList
  stateDir := "/s".toList
  curDir := []
  batchRootPath := "/b".toList
  lastError := none
  notices := []
  libraryPaths := []
  currentProfile := "default".toList
  profiles := ["default".toList]
  nowStr := "2026-01-01 00:00:00".toList
  batchRoot := []
  fsFuel := 0
  isDir := fun _ => false
  pathExists := fun _ => false
  listDirFmt := fun _ => .error "io".toList
  createFileIO := fun _ => .error "io".toList
  copyFileIO := fun _ _ => .error "io".toList
  moveFileIO := fun _ _ => .error "io".toList
  compareFilesIO := fun _ _ => .error "io".toList
  deleteFileIO := fun _ => .error "io".toList
  createDirIO := fun _ => .error "io".toList
  copyDirIO := fun _ _ => .error "io".toList
  moveDirIO := fun _ _ => .error "io".toList
  deleteDirIO := fun _ => .error "io".toList
  renameIO := fun _ _ => .error "io".toList
  displayFileIO := fun _ => .error "io".toList
  fileStatusIO := fun _ => .error "io".toList
  dirStatusIO := fun _ => .error "io".toList
  diskUsageIO := fun _ => .error "io".toList
  dumpFileIO := fun _ => .error "io".toList
  listUsersIO := .error "io".toList
  compareDirsResult := fun _ _ => []
  deviceInfoIO := .error "io".toList
  diskInfoIO := .error "io".toList
  systemUsageIO := .error "io".toList
  termParamsIO := .error "io".toList
  locateFilesResult := fun _ => "(no matches)".toList
  locateLargeFilesResult := fun _ => "(no matches)".toList
  locateLargeDirsResult := fun _ => "(no matches)".toList
  parseSizeO := fun _ => none
  writeJobIO := fun _ => .error "io".toList
  txtCommandsIO := .ok []
  commandsReport := fun _ => "VOS commands report".toList

/-- The world in which `vos_commands.txt` exists but opening it raises
`PermissionError` — the unguarded read in `load_txt_commands`
propagates it. -/
def permDeniedWorld : World :=
  { trivialWorld with txtCommandsIO := Except.error "Permission denied".toList }

/-- C9: the claim (and the repository's own smoke tests, which invoke
every implemented handler with `[]` and fail on any uncaught
exception) requires every registered handler to return a string on the
empty argument list.  The code falls short at exactly one call site:
`h_show_commands_status` — registered as both `show commands status`
and `show commands report` — calls `load_txt_commands()` outside any
`try/except`, and when that unguarded open/read of
`vos_commands.txt` raises, the exception propagates out of the handler
even on empty arguments.  Every other path is safe: whenever the
command-list read succeeds, **all** registered handlers return a
string on `[]` for every world. -/
theorem builtins_empty_args_unguarded_txt_read :
    ("show commands status".toList, h_show_commands_status) ∈ BUILTINS ∧
    ("show commands report".toList, h_show_commands_status) ∈ BUILTINS ∧
    h_show_commands_status permDeniedWorld []
      = Except.error "Permission denied".toList ∧
    (∀ (w : World) (err : Str), w.txtCommandsIO = Except.error err →
      h_show_commands_status w [] = Except.error err) ∧
    (∀ (w : World) (names : List Str), w.txtCommandsIO = Except.ok names →
      ∀ e ∈ BUILTINS, ∃ s, e.2 w [] = Except.ok s) := by
  refine ⟨by simp [BUILTINS], by simp [BUILTINS], rfl, ?_, ?_⟩
  · intro w err herr
    dsimp only [h_show_commands_status]
    rw [herr]
  · intro w names hok e he
    fin_cases he <;>
      first
        | exact ⟨_, rfl⟩
        | (dsimp only [h_list, h_display_dir_status, h_display_disk_usage,
            h_list_users, h_list_library_paths, h_display_current_dir,
            h_display_error, h_display_notices, h_display_terminal_parameters,
            h_display_device_info, h_display_disk_info, h_display_system_usage,
            h_display_batch_status, h_list_batch_requests]
           repeat' split
           all_goals exact ⟨_, rfl⟩)
        | (dsimp only [h_show_commands_status]
           rw [hok]
           exact ⟨_, rfl⟩)

/-- Witness for C9: in the concrete world whose command-list read
succeeds (and whose other filesystem oracles all fail), the report
handler — the one carrying the bug — returns a string on `[]`. -/
theorem builtins_empty_args_unguarded_txt_read_witness :
    ∃ s, h_show_commands_status trivialWorld [] = Except.ok s :=
  builtins_empty_args_unguarded_txt_read.2.2.2.2 trivialWorld [] rfl
    ("show commands status".toList, h_show_commands_status)
    (by simp [BUILTINS])

/-- Witness for C6: with `report.job` already present in queue
`normal`, the next submission of a job named `report` is stored as
`report_1.job` — the two submissions occupy `report.job` and
`report_1.job`. -/
theorem generate_unique_job_path_first_free_witness :
    generate_unique_job_path
        (fun s => s = "/broot/normal/report.job".toList)
        "/broot".toList 5 "normal".toList "report".toList
      = pyJoin (pyJoin "/broot".toList "normal".toList)
          (jobFileName "report".toList 1) :=
  generate_unique_job_path_first_free
    (fun s => s = "/broot/normal/report.job".toList)
    "/broot".toList "normal".toList "report".toList 5 1
    (by decide) (by decide)
    (fun j hj => by
      have hj0 : j = 0 := by omega
      subst hj0
      decide)

end VosEmu
